import Mathlib

/-!
# Solomon: backend resolution and the 3-D diffusion sample

A shallow embedding of

* `solomon/solomon.hpp`: the preprocessor logic that resolves the offloading
  backend from the build flags, and
* `samples/diffusion/diffusion.c`: `diffusion3d`, `init` and `accuracy`.

Modelling conventions.

* A preprocessor symbol is a field of `BuildFlags`; `#undef` clears the field.
* `int` is `Int` restricted to the 32-bit range. Signed overflow is undefined
  behaviour in C; every `int` operation of the source goes through `int32`,
  which fails (`none`) outside the range, and the failure propagates to the
  result of the function.
* The functions of `diffusion.c` are embedded twice. In `diffusion3d`, `init`
  and `accuracy`, `float` and `double` are elements of a field `α`
  (arithmetic taken as exact; casts between them are the identity), and the
  functions `cosf`, `expf`, `sqrt` of libm and the constant `M_PI` are
  parameters. In `diffusion3dF32`, `initF32` and `accuracyF32` every `float`
  and `double` operation rounds as IEEE 754 binary32 and binary64 do, and the
  functions of libm are parameters.
* A buffer (`float *`) is a function `Int → α` from offsets to values;
  `restrict` makes `f` and `fn` distinct buffers.
* `OFFLOAD(...)` in front of the loop nest of `diffusion3d` is a pragma: the
  iterations are run in source order.
-/

namespace Solomon

/-! ## solomon.hpp: backend resolution -/

/-- The preprocessor symbols read by `solomon.hpp`. `_OPENMP` carries its
numeric value when it is defined. -/
structure BuildFlags where
  OFFLOAD_BY_OPENACC : Bool
  _OPENACC : Bool
  OFFLOAD_BY_OPENMP_TARGET : Bool
  _OPENMP : Option Int
  deriving DecidableEq, Repr

/-- The value the preprocessor gives `_OPENMP` inside `#if`: an undefined
identifier evaluates to `0`. -/
def BuildFlags.openmpValue (fl : BuildFlags) : Int :=
  fl._OPENMP.getD 0

/-- Lines 22-30, "disable unavailable backends". -/
def disableUnavailable (fl : BuildFlags) : BuildFlags :=
  let fl1 : BuildFlags :=
    if fl.OFFLOAD_BY_OPENACC && !fl._OPENACC then
      { fl with OFFLOAD_BY_OPENACC := false }
    else fl
  if fl1.OFFLOAD_BY_OPENMP_TARGET && !(decide (fl1.openmpValue ≥ 201307)) then
    { fl1 with OFFLOAD_BY_OPENMP_TARGET := false }
  else fl1

/-- Lines 32-35, "select only one backend for offloading". -/
def selectOne (fl : BuildFlags) : BuildFlags :=
  if fl.OFFLOAD_BY_OPENACC && fl.OFFLOAD_BY_OPENMP_TARGET then
    { fl with OFFLOAD_BY_OPENMP_TARGET := false }
  else fl

/-- The backend headers `solomon.hpp` can include at lines 42-58; each one
binds the `PRAGMA_ACC_*` / `ACC_CLAUSE_*` names the vocabulary expands to. -/
inductive Header where
  | acc
  | omp_target
  | fallback
  deriving DecidableEq, Repr

/-- What the chain `#if / #elif / #elif / #endif` of lines 42-58 leaves:
the list of backend headers it included and whether `IF_NOT_OFFLOADED(arg)`
expands to `arg` (it is first defined empty at line 40). -/
structure Binding where
  included : List Header
  ifNotOffloadedKeepsArg : Bool
  deriving DecidableEq, Repr

/-- Lines 37-58, "set backend". The last branch is `#elif defined(_OPENMP)`;
there is no `#else`. -/
def setBackend (fl : BuildFlags) : Binding :=
  if fl.OFFLOAD_BY_OPENACC then
    { included := [Header.acc], ifNotOffloadedKeepsArg := false }
  else if fl.OFFLOAD_BY_OPENMP_TARGET then
    { included := [Header.omp_target], ifNotOffloadedKeepsArg := false }
  else if fl._OPENMP.isSome then
    { included := [Header.fallback], ifNotOffloadedKeepsArg := true }
  else
    { included := [], ifNotOffloadedKeepsArg := false }

/-- The state after lines 17-58 of `solomon.hpp`. -/
structure Resolved where
  ompHppIncluded : Bool
  flags : BuildFlags
  binding : Binding
  deriving DecidableEq, Repr

/-- Lines 17-58 in order: include `omp.hpp` when `_OPENMP` is defined, clear
the unavailable backends, keep one accelerator, bind the backend. -/
def resolve (fl : BuildFlags) : Resolved :=
  let fl2 := selectOne (disableUnavailable fl)
  { ompHppIncluded := fl._OPENMP.isSome, flags := fl2, binding := setBackend fl2 }

/-- `OFFLOAD(...)` (line 63) expands to `PRAGMA_ACC_OFFLOADING_DEFAULT(...)`,
which only a backend header defines: the vocabulary is defined when exactly
the included headers bind it. -/
def vocabularyDefined (r : Resolved) : Bool :=
  !r.binding.included.isEmpty

/-- The use of `IF_NOT_OFFLOADED(arg)` after resolution: `arg` when the
definition of line 57 is the active one, nothing when the empty definition of
line 40 is. -/
def IF_NOT_OFFLOADED {τ : Type} (r : Resolved) (arg : List τ) : List τ :=
  if r.binding.ifNotOffloadedKeepsArg then arg else []

/-- What `ASYNC_QUEUE(id)` and `WAIT_QUEUE(id)` expand to: a use of the name
`ACC_CLAUSE_ASYNC` or `PRAGMA_ACC_WAIT` of the backend header with the queue
id as argument, or no token at all. -/
inductive QueueExpansion (ι : Type) where
  | ACC_CLAUSE_ASYNC (id : ι)
  | PRAGMA_ACC_WAIT (id : ι)
  | nothing
  deriving DecidableEq, Repr

/-- Lines 125-136: `ASYNC_QUEUE(id)`, read with the flags left by the
resolution. -/
def ASYNC_QUEUE {ι : Type} (r : Resolved) (id : ι) : QueueExpansion ι :=
  if r.flags.OFFLOAD_BY_OPENACC then QueueExpansion.ACC_CLAUSE_ASYNC id
  else QueueExpansion.nothing

/-- Lines 143-153: `WAIT_QUEUE(id)`, read with the flags left by the
resolution. -/
def WAIT_QUEUE {ι : Type} (r : Resolved) (id : ι) : QueueExpansion ι :=
  if r.flags.OFFLOAD_BY_OPENACC then QueueExpansion.PRAGMA_ACC_WAIT id
  else QueueExpansion.nothing

/-! ## diffusion.c: machine integers, loops and buffers -/

/-- Largest value of a 32-bit `int`. -/
def INT_MAX : Int := 2147483647

/-- Smallest value of a 32-bit `int`. -/
def INT_MIN : Int := -2147483648

/-- The result of an `int` operation whose mathematical value is `x`: the
value itself when it is representable, undefined (signed overflow) otherwise. -/
def int32 (x : Int) : Option Int :=
  if INT_MIN ≤ x ∧ x ≤ INT_MAX then some x else none

/-- Macro `INDEX(nx, ny, nz, ii, jj, kk)`: `((kk) + (nz) * ((jj) + (ny) * (ii)))`,
four `int` operations from the inside out. The macro does not use `nx`. -/
def INDEX (_nx ny nz ii jj kk : Int) : Option Int := do
  let a ← int32 (ny * ii)
  let b ← int32 (jj + a)
  let c ← int32 (nz * b)
  int32 (kk + c)

/-- Macro `IMIN(a, b)`: `(((a) < (b)) ? (a) : (b))`. -/
def IMIN (a b : Int) : Int := if a < b then a else b

/-- Macro `IMAX(a, b)`: `(((a) > (b)) ? (a) : (b))`. -/
def IMAX (a b : Int) : Int := if a > b then a else b

/-- The loop `for (int i = 0; i < n; i++) body` run on state `s`, for a loop
of `n` iterations: the first `n - 1` iterations, then iteration `n - 1`. An
iteration that is undefined makes the loop undefined. -/
def forLoop {σ : Type} (body : Int → σ → Option σ) : Nat → σ → Option σ
  | 0, s => some s
  | n + 1, s => (forLoop body n s).bind (body (n : Int))

/-- The loop nest `for i < nx, for j < ny, for k < nz` of all three
functions of the sample; a non-positive bound gives no iteration. -/
def loopNest {σ : Type} (nx ny nz : Int) (body : Int → Int → Int → σ → Option σ)
    (s : σ) : Option σ :=
  forLoop (fun i si =>
    forLoop (fun j sj =>
      forLoop (fun k sk => body i j k sk) nz.toNat sj) ny.toNat si) nx.toNat s

/-! ## diffusion.c: diffusion3d -/

/-- The seven stencil coefficients of `diffusion3d`. -/
structure Coefficients (α : Type) where
  ce : α
  cw : α
  cn : α
  cs : α
  ct : α
  cb : α
  cc : α

/-- Lines 19-26 of `diffusion.c`. -/
def coefficients {α : Type} [Field α] (dx dy dz dt kappa : α) : Coefficients α :=
  let ce := kappa * dt / (dx * dx)
  let cw := ce
  let cn := kappa * dt / (dy * dy)
  let cs := cn
  let ct := kappa * dt / (dz * dz)
  let cb := ct
  let cc := 1 - (ce + cw + cn + cs + ct + cb)
  { ce := ce, cw := cw, cn := cn, cs := cs, ct := ct, cb := cb, cc := cc }

/-- The seven linear indices of the loop body, lines 32-38. -/
structure StencilIndices where
  ix : Int
  ip : Int
  im : Int
  jp : Int
  jm : Int
  kp : Int
  km : Int
  deriving DecidableEq, Repr

/-- Lines 32-38: the centre index and the six clamped neighbour indices. -/
def stencilIndices (nx ny nz i j k : Int) : Option StencilIndices := do
  let ix ← INDEX nx ny nz i j k
  let ip ← INDEX nx ny nz (IMIN (← int32 (i + 1)) (← int32 (nx - 1))) j k
  let im ← INDEX nx ny nz (IMAX (← int32 (i - 1)) 0) j k
  let jp ← INDEX nx ny nz i (IMIN (← int32 (j + 1)) (← int32 (ny - 1))) k
  let jm ← INDEX nx ny nz i (IMAX (← int32 (j - 1)) 0) k
  let kp ← INDEX nx ny nz i j (IMIN (← int32 (k + 1)) (← int32 (nz - 1)))
  let km ← INDEX nx ny nz i j (IMAX (← int32 (k - 1)) 0)
  some { ix := ix, ip := ip, im := im, jp := jp, jm := jm, kp := kp, km := km }

/-- Line 40: the value stored to `fn[ix]`. -/
def stencilValue {α : Type} [Field α] (c : Coefficients α) (f : Int → α)
    (s : StencilIndices) : α :=
  c.cc * f s.ix + c.ce * f s.ip + c.cw * f s.im + c.cn * f s.jp + c.cs * f s.jm
    + c.ct * f s.kp + c.cb * f s.km

/-- The loop body of `diffusion3d`, lines 32-40. -/
def diffusion3dBody {α : Type} [Field α] (nx ny nz : Int) (c : Coefficients α)
    (f : Int → α) (i j k : Int) (fn : Int → α) : Option (Int → α) := do
  let s ← stencilIndices nx ny nz i j k
  some (Function.update fn s.ix (stencilValue c f s))

/-- The return value of `diffusion3d`, line 45:
`(double)(nx * ny * nz) * 13.0`, the product formed in `int`. -/
def diffusion3dCost {α : Type} [Field α] (nx ny nz : Int) : Option α := do
  let p ← int32 (nx * ny)
  let q ← int32 (p * nz)
  some ((q : α) * 13)

/-- Function `diffusion3d`: the buffer `fn` after the call and the returned
cost. -/
def diffusion3d {α : Type} [Field α] (nx ny nz : Int) (dx dy dz dt kappa : α)
    (f fn : Int → α) : Option ((Int → α) × α) := do
  let c := coefficients dx dy dz dt kappa
  let fn1 ← loopNest nx ny nz (diffusion3dBody nx ny nz c f) fn
  let cost ← diffusion3dCost nx ny nz
  some (fn1, cost)

/-! ## diffusion.c: init and accuracy -/

/-- Cell-centre coordinate `h * ((float)i + 0.5F)`. -/
def cellCentre {α : Type} [Field α] (h : α) (i : Int) : α :=
  h * ((i : α) + 1 / 2)

/-- Line 61: the value `init` stores for cell `(i, j, k)`; `kx = ky = kz =
2.0F * (float)M_PI`. -/
def initValue {α : Type} [Field α] (cosf : α → α) (pi : α) (dx dy dz : α)
    (i j k : Int) : α :=
  let kx := 2 * pi
  let ky := kx
  let kz := kx
  let x := cellCentre dx i
  let y := cellCentre dy j
  let z := cellCentre dz k
  1 / 8 * (1 - cosf (kx * x)) * (1 - cosf (ky * y)) * (1 - cosf (kz * z))

/-- The loop body of `init`, lines 56-61. -/
def initBody {α : Type} [Field α] (cosf : α → α) (pi : α) (nx ny nz : Int)
    (dx dy dz : α) (i j k : Int) (f : Int → α) : Option (Int → α) := do
  let ix ← INDEX nx ny nz i j k
  some (Function.update f ix (initValue cosf pi dx dy dz i j k))

/-- Function `init`: the buffer `f` after the call. -/
def init {α : Type} [Field α] (cosf : α → α) (pi : α) (nx ny nz : Int)
    (dx dy dz : α) (f : Int → α) : Option (Int → α) :=
  loopNest nx ny nz (initBody cosf pi nx ny nz dx dy dz) f

/-- Lines 72-74: the decay factor `expf(-kappa * (float)time * (kx * kx))`
of one axis; the three axes share `kx = ky = kz`. -/
def decayFactor {α : Type} [Field α] (expf : α → α) (pi : α) (kappa time : α) : α :=
  let kx := 2 * pi
  expf (-kappa * time * (kx * kx))

/-- Line 86: the analytic value `f0` of cell `(i, j, k)`. -/
def analyticValue {α : Type} [Field α] (cosf expf : α → α) (pi : α) (time : α)
    (dx dy dz kappa : α) (i j k : Int) : α :=
  let kx := 2 * pi
  let ky := kx
  let kz := kx
  let ax := decayFactor expf pi kappa time
  let ay := decayFactor expf pi kappa time
  let az := decayFactor expf pi kappa time
  let x := cellCentre dx i
  let y := cellCentre dy j
  let z := cellCentre dz k
  1 / 8 * (1 - ax * cosf (kx * x)) * (1 - ay * cosf (ky * y)) * (1 - az * cosf (kz * z))

/-- The loop body of `accuracy`, lines 81-88, on the accumulator `ferr`. -/
def accuracyBody {α : Type} [Field α] (cosf expf : α → α) (pi : α) (time : α)
    (nx ny nz : Int) (dx dy dz kappa : α) (f : Int → α) (i j k : Int)
    (ferr : α) : Option α := do
  let ix ← INDEX nx ny nz i j k
  let f0 := analyticValue cosf expf pi time dx dy dz kappa i j k
  some (ferr + (f ix - f0) * (f ix - f0))

/-- Function `accuracy`: `sqrt(ferr / (double)(nx * ny * nz))`, the product
formed in `int`. -/
def accuracy {α : Type} [Field α] (cosf expf sqrt : α → α) (pi : α) (time : α)
    (nx ny nz : Int) (dx dy dz kappa : α) (f : Int → α) : Option α := do
  let ferr ← loopNest nx ny nz (accuracyBody cosf expf pi time nx ny nz dx dy dz kappa f) 0
  let p ← int32 (nx * ny)
  let q ← int32 (p * nz)
  some (sqrt (ferr / (q : α)))

/-! ## binary32 and binary64 arithmetic

The value of a finite `float` or `double` is a rational number. An operation
rounds its exact result to the nearest representable value, ties to even
(the default rounding of IEEE 754); a result that is not a finite number
(an overflow to infinity, a division by zero, a NaN) is `none`, and it
propagates to the result of the function. The sign of zero is not kept. -/

/-- The power `2 ^ e` for an integer exponent. -/
def pow2 (e : Int) : ℚ :=
  if 0 ≤ e then ((2 ^ e.toNat : Nat) : ℚ) else 1 / ((2 ^ (-e).toNat : Nat) : ℚ)

/-- The number of binary digits of `n`, computed with `fuel ≥` that number. -/
def bitLength : Nat → Nat → Nat
  | 0, _ => 0
  | fuel + 1, n => if n = 0 then 0 else bitLength fuel (n / 2) + 1

/-- The integer `e` with `2 ^ e ≤ |q| < 2 ^ (e + 1)`, for `q ≠ 0`. -/
def floorLog2 (q : ℚ) : Int :=
  let g : Int := (bitLength q.num.natAbs q.num.natAbs : Int) - (bitLength q.den q.den : Int)
  if pow2 g ≤ |q| then g else g - 1

/-- The integer nearest to `q`, the even one of the two when `q` is halfway. -/
def roundHalfEven (q : ℚ) : Int :=
  let fl : Int := Rat.floor q
  let r : ℚ := q - fl
  if r < 1 / 2 then fl else if 1 / 2 < r then fl + 1 else if fl % 2 = 0 then fl else fl + 1

/-- Rounding to nearest, ties to even, in a binary format with `prec` digits
whose smallest unit in the last place is `2 ^ eminUlp` (subnormal numbers
included). -/
def roundTo (prec : Nat) (eminUlp : Int) (q : ℚ) : ℚ :=
  if q = 0 then 0 else
    let e : Int := max eminUlp (floorLog2 q - ((prec : Int) - 1))
    (roundHalfEven (q / pow2 e) : ℚ) * pow2 e

/-- The `float` (IEEE 754 binary32) nearest to `q`, when it is finite: 24
digits, smallest unit `2 ^ (-149)`, largest value `(2 ^ 24 - 1) * 2 ^ 104`. -/
def binary32 (q : ℚ) : Option ℚ :=
  let r := roundTo 24 (-149) q
  if |r| ≤ (2 ^ 24 - 1) * 2 ^ 104 then some r else none

/-- The `double` (IEEE 754 binary64) nearest to `q`, when it is finite: 53
digits, smallest unit `2 ^ (-1074)`, largest value `(2 ^ 53 - 1) * 2 ^ 971`. -/
def binary64 (q : ℚ) : Option ℚ :=
  let r := roundTo 53 (-1074) q
  if |r| ≤ (2 ^ 53 - 1) * 2 ^ 971 then some r else none

/-- Operator `+` on `float`. -/
def f32add (a b : ℚ) : Option ℚ := binary32 (a + b)

/-- Operator `*` on `float`. -/
def f32mul (a b : ℚ) : Option ℚ := binary32 (a * b)

/-- Operator `/` on `float`; a zero divisor gives an infinity or a NaN. -/
def f32div (a b : ℚ) : Option ℚ := if b = 0 then none else binary32 (a / b)

/-- Operator `-` on `double`. -/
def f64sub (a b : ℚ) : Option ℚ := binary64 (a - b)

/-- Operator `*` on `double`. -/
def f64mul (a b : ℚ) : Option ℚ := binary64 (a * b)

/-- Lines 19, 21, 23 in `float`: `kappa * dt / (h * h)`. -/
def faceCoefficientF32 (kappa dt h : ℚ) : Option ℚ := do
  let num ← f32mul kappa dt
  let den ← f32mul h h
  f32div num den

/-- Line 26 in `float`: the sum `ce + cw + cn + cs + ct + cb`, added from left
to right. -/
def faceSumF32 (ce cw cn cs ct cb : ℚ) : Option ℚ := do
  let s1 ← f32add ce cw
  let s2 ← f32add s1 cn
  let s3 ← f32add s2 cs
  let s4 ← f32add s3 ct
  f32add s4 cb

/-- Line 26: `cc = 1.0 - sum`, the subtraction from the `double` constant
`1.0` in `double`, the difference stored to a `float`. -/
def centreCoefficientF32 (sum : ℚ) : Option ℚ := do
  let d ← f64sub 1 sum
  binary32 d

/-- Lines 19-26 of `diffusion.c` in `float`. -/
def coefficientsF32 (dx dy dz dt kappa : ℚ) : Option (Coefficients ℚ) := do
  let ce ← faceCoefficientF32 kappa dt dx
  let cn ← faceCoefficientF32 kappa dt dy
  let ct ← faceCoefficientF32 kappa dt dz
  let sum ← faceSumF32 ce ce cn cn ct ct
  let cc ← centreCoefficientF32 sum
  some { ce := ce, cw := ce, cn := cn, cs := cn, ct := ct, cb := ct, cc := cc }

/-- One step of line 40 in `float`: `acc + c * v`, the product rounded, then
the sum. -/
def addProductF32 (acc c v : ℚ) : Option ℚ := do
  let p ← f32mul c v
  f32add acc p

/-- Line 40 in `float`: seven products, added from left to right. -/
def stencilValueF32 (c : Coefficients ℚ) (f : Int → ℚ) (s : StencilIndices) : Option ℚ := do
  let a0 ← f32mul c.cc (f s.ix)
  let a1 ← addProductF32 a0 c.ce (f s.ip)
  let a2 ← addProductF32 a1 c.cw (f s.im)
  let a3 ← addProductF32 a2 c.cn (f s.jp)
  let a4 ← addProductF32 a3 c.cs (f s.jm)
  let a5 ← addProductF32 a4 c.ct (f s.kp)
  addProductF32 a5 c.cb (f s.km)

/-- The loop body of `diffusion3d`, lines 32-40, in `float`. -/
def diffusion3dBodyF32 (nx ny nz : Int) (c : Coefficients ℚ) (f : Int → ℚ) (i j k : Int)
    (fn : Int → ℚ) : Option (Int → ℚ) := do
  let s ← stencilIndices nx ny nz i j k
  let v ← stencilValueF32 c f s
  some (Function.update fn s.ix v)

/-- The return value of `diffusion3d`, line 45, in `double`. -/
def diffusion3dCostF64 (nx ny nz : Int) : Option ℚ := do
  let p ← int32 (nx * ny)
  let q ← int32 (p * nz)
  f64mul (q : ℚ) 13

/-- Function `diffusion3d` in `float`: the buffer `fn` after the call and the
returned cost. -/
def diffusion3dF32 (nx ny nz : Int) (dx dy dz dt kappa : ℚ) (f fn : Int → ℚ) :
    Option ((Int → ℚ) × ℚ) := do
  let c ← coefficientsF32 dx dy dz dt kappa
  let fn1 ← loopNest nx ny nz (diffusion3dBodyF32 nx ny nz c f) fn
  let cost ← diffusion3dCostF64 nx ny nz
  some (fn1, cost)

/-! ## diffusion.c in binary32: init and accuracy -/

/-- The mathematical value of `INDEX(nx, ny, nz, i, j, k)`. -/
def linearIndex (ny nz i j k : Int) : Int := k + nz * (j + ny * i)

/-- The cell `(i, j, k)` a linear index belongs to. -/
def cellOf (ny nz p : Int) : Int × Int × Int := (p / nz / ny, p / nz % ny, p % nz)

/-- A loop of `n` iterations whose body is always defined. -/
def pureLoop {σ : Type} (g : Int → σ → σ) : Nat → σ → σ
  | 0, s => s
  | n + 1, s => g (n : Int) (pureLoop g n s)

/-- The loop nest with a body that is always defined. -/
def pureNest {σ : Type} (nx ny nz : Int) (g : Int → Int → Int → σ → σ) (s : σ) : σ :=
  pureLoop (fun i si =>
    pureLoop (fun j sj =>
      pureLoop (fun k sk => g i j k sk) nz.toNat sj) ny.toNat si) nx.toNat s

/-- The seven indices of cell `(i, j, k)` without overflow checks. -/
def pureStencilIndices (nx ny nz i j k : Int) : StencilIndices :=
  { ix := linearIndex ny nz i j k
    ip := linearIndex ny nz (IMIN (i + 1) (nx - 1)) j k
    im := linearIndex ny nz (IMAX (i - 1) 0) j k
    jp := linearIndex ny nz i (IMIN (j + 1) (ny - 1)) k
    jm := linearIndex ny nz i (IMAX (j - 1) 0) k
    kp := linearIndex ny nz i j (IMIN (k + 1) (nz - 1))
    km := linearIndex ny nz i j (IMAX (k - 1) 0) }

/-- The sum over all cells of the grid, in loop order. -/
def cellSum {α : Type} [Field α] (nx ny nz : Int) (t : Int → Int → Int → α) : α :=
  ∑ i in Finset.range nx.toNat, ∑ j in Finset.range ny.toNat,
    ∑ k in Finset.range nz.toNat, t (i : Int) (j : Int) (k : Int)

/-- The buffer `fn` after `diffusion3d` when no `int` operation overflows. -/
def diffusion3dField {α : Type} [Field α] (nx ny nz : Int) (dx dy dz dt kappa : α)
    (f fn : Int → α) : Int → α :=
  pureNest nx ny nz (fun i j k sk => Function.update sk (linearIndex ny nz i j k)
    (stencilValue (coefficients dx dy dz dt kappa) f (pureStencilIndices nx ny nz i j k))) fn

/-- The buffer `f` after `init` when no `int` operation overflows. -/
def initField {α : Type} [Field α] (cosf : α → α) (pi : α) (nx ny nz : Int)
    (dx dy dz : α) (f : Int → α) : Int → α :=
  pureNest nx ny nz (fun i j k sk => Function.update sk (linearIndex ny nz i j k)
    (initValue cosf pi dx dy dz i j k)) f

/-- The term cell `(i, j, k)` adds to `ferr` in `accuracy`. -/
def squaredError {α : Type} [Field α] (cosf expf : α → α) (pi : α) (time : α)
    (ny nz : Int) (dx dy dz kappa : α) (f : Int → α) (i j k : Int) : α :=
  (f (linearIndex ny nz i j k) - analyticValue cosf expf pi time dx dy dz kappa i j k)
    * (f (linearIndex ny nz i j k) - analyticValue cosf expf pi time dx dy dz kappa i j k)

/-! ## Lemmas: machine integers and loops -/

theorem int32_of_range {x : Int} (h1 : -2147483648 ≤ x) (h2 : x ≤ 2147483647) :
    int32 x = some x := by
  simp [int32, INT_MIN, INT_MAX, h1, h2]

theorem int32_of_overflow {x : Int} (h : 2147483647 < x) : int32 x = none := by
  have : ¬ x ≤ 2147483647 := not_le.mpr h
  simp [int32, INT_MAX, this]

/-- Bounds of the linear index of a cell of the grid. -/
theorem linearIndex_bounds {nx ny nz i j k : Int}
    (hi : 0 ≤ i) (hi2 : i < nx) (hj : 0 ≤ j) (hj2 : j < ny) (hk : 0 ≤ k) (hk2 : k < nz) :
    0 ≤ ny * i ∧ ny * i ≤ j + ny * i ∧ j + ny * i ≤ nx * ny - 1
      ∧ 0 ≤ nz * (j + ny * i) ∧ nz * (j + ny * i) ≤ linearIndex ny nz i j k
      ∧ linearIndex ny nz i j k ≤ nx * ny * nz - 1 ∧ nx * ny ≤ nx * ny * nz := by
  have hny : 0 ≤ ny := by omega
  have hnz : 0 ≤ nz := by omega
  have h1 : 0 ≤ ny * i := mul_nonneg hny hi
  have h2 : ny * i ≤ ny * (nx - 1) := mul_le_mul_of_nonneg_left (by omega) hny
  have h3 : j + ny * i ≤ nx * ny - 1 := by
    have : ny * (nx - 1) = nx * ny - ny := by ring
    omega
  have h4 : 0 ≤ nz * (j + ny * i) := mul_nonneg hnz (by omega)
  have h5 : nz * (j + ny * i) ≤ nz * (nx * ny - 1) := mul_le_mul_of_nonneg_left h3 hnz
  have h6 : nz * (nx * ny - 1) = nx * ny * nz - nz := by ring
  have h7 : 1 * 1 ≤ nx * ny := mul_le_mul (by omega) (by omega) (by omega) (by omega)
  have h8 : nx * ny * 1 ≤ nx * ny * nz := mul_le_mul_of_nonneg_left (by omega) (by omega)
  unfold linearIndex
  refine ⟨h1, by omega, h3, h4, by omega, by omega, by omega⟩

/-- Without overflow `INDEX` is the linear index. -/
theorem INDEX_eq_some {nx ny nz i j k : Int}
    (hi : 0 ≤ i) (hi2 : i < nx) (hj : 0 ≤ j) (hj2 : j < ny) (hk : 0 ≤ k) (hk2 : k < nz)
    (hN : nx * ny * nz ≤ 2147483647) :
    INDEX nx ny nz i j k = some (linearIndex ny nz i j k) := by
  obtain ⟨h1, h2, h3, h4, h5, h6, h7⟩ := linearIndex_bounds hi hi2 hj hj2 hk hk2
  have e1 : int32 (ny * i) = some (ny * i) := int32_of_range (by omega) (by omega)
  have e2 : int32 (j + ny * i) = some (j + ny * i) := int32_of_range (by omega) (by omega)
  have e3 : int32 (nz * (j + ny * i)) = some (nz * (j + ny * i)) :=
    int32_of_range (by omega) (by unfold linearIndex at h5 h6; omega)
  have e4 : int32 (k + nz * (j + ny * i)) = some (k + nz * (j + ny * i)) :=
    int32_of_range (by omega) (by unfold linearIndex at h6; omega)
  simp [INDEX, e1, e2, e3, e4, linearIndex]

theorem forLoop_eq_some {σ : Type} (body : Int → σ → Option σ) (g : Int → σ → σ) (n : Nat)
    (h : ∀ i : Nat, i < n → ∀ s, body (i : Int) s = some (g (i : Int) s)) (s : σ) :
    forLoop body n s = some (pureLoop g n s) := by
  induction n with
  | zero => rfl
  | succ n ih =>
    have ih2 := ih (fun i hi => h i (Nat.lt_succ_of_lt hi))
    simp [forLoop, pureLoop, ih2, h n (Nat.lt_succ_self n)]

theorem forLoop_eq_none {σ : Type} (body : Int → σ → Option σ) (n i0 : Nat) (hi : i0 < n)
    (h : ∀ s, body (i0 : Int) s = none) (s : σ) :
    forLoop body n s = none := by
  induction n with
  | zero => omega
  | succ n ih =>
    rcases Nat.lt_succ_iff_lt_or_eq.mp hi with h1 | h1
    · simp [forLoop, ih h1]
    · subst h1
      cases hs : forLoop body i0 s with
      | none => simp [forLoop, hs]
      | some s1 => simp [forLoop, hs, h s1]

theorem loopNest_eq_some {σ : Type} (nx ny nz : Int) (body : Int → Int → Int → σ → Option σ)
    (g : Int → Int → Int → σ → σ)
    (h : ∀ i j k : Nat, i < nx.toNat → j < ny.toNat → k < nz.toNat →
      ∀ s, body i j k s = some (g i j k s)) (s : σ) :
    loopNest nx ny nz body s = some (pureNest nx ny nz g s) := by
  unfold loopNest pureNest
  apply forLoop_eq_some
  intro i hi si
  apply forLoop_eq_some
  intro j hj sj
  apply forLoop_eq_some
  intro k hk sk
  exact h i j k hi hj hk sk

theorem loopNest_eq_none {σ : Type} (nx ny nz : Int) (body : Int → Int → Int → σ → Option σ)
    (i0 j0 k0 : Nat) (hi : i0 < nx.toNat) (hj : j0 < ny.toNat) (hk : k0 < nz.toNat)
    (h : ∀ s, body i0 j0 k0 s = none) (s : σ) :
    loopNest nx ny nz body s = none := by
  unfold loopNest
  apply forLoop_eq_none _ _ i0 hi
  intro si
  apply forLoop_eq_none _ _ j0 hj
  intro sj
  exact forLoop_eq_none _ _ k0 hk h sj

/-- The cell of a linear index is recovered from it. -/
theorem cellOf_linearIndex {ny nz i j k : Int}
    (hj : 0 ≤ j) (hj2 : j < ny) (hk : 0 ≤ k) (hk2 : k < nz) :
    cellOf ny nz (linearIndex ny nz i j k) = (i, j, k) := by
  have hnz : nz ≠ 0 := by omega
  have hny : ny ≠ 0 := by omega
  have e1 : (k + nz * (j + ny * i)) % nz = k := by
    rw [Int.add_mul_emod_self_left]
    exact Int.emod_eq_of_lt hk hk2
  have e2 : (k + nz * (j + ny * i)) / nz = j + ny * i := by
    rw [Int.add_mul_ediv_left _ _ hnz, Int.ediv_eq_zero_of_lt hk hk2]
    simp
  have e3 : (j + ny * i) % ny = j := by
    rw [Int.add_mul_emod_self_left]
    exact Int.emod_eq_of_lt hj hj2
  have e4 : (j + ny * i) / ny = i := by
    rw [Int.add_mul_ediv_left _ _ hny, Int.ediv_eq_zero_of_lt hj hj2]
    simp
  simp [cellOf, linearIndex, e1, e2, e3, e4]

/-- A loop whose iteration `i` stores `v p` at the offsets `p` of `W i` and
leaves the rest: the loop stores `v p` at the offsets of all `W i`, `i < n`. -/
theorem pureLoop_writes {α : Type} (g : Int → (Int → α) → (Int → α)) (W : Int → Int → Prop)
    (v : Int → α) (n : Nat)
    (h : ∀ i : Nat, i < n → ∀ s : Int → α,
      (∀ p, W i p → g i s p = v p) ∧ (∀ p, ¬ W i p → g i s p = s p)) (s : Int → α) :
    (∀ p, (∃ i : Nat, i < n ∧ W i p) → pureLoop g n s p = v p)
      ∧ (∀ p, (¬ ∃ i : Nat, i < n ∧ W i p) → pureLoop g n s p = s p) := by
  induction n with
  | zero =>
    constructor
    · rintro p ⟨i, hi, _⟩
      omega
    · intro p _
      rfl
  | succ n ih =>
    obtain ⟨ih1, ih2⟩ := ih (fun i hi => h i (Nat.lt_succ_of_lt hi))
    obtain ⟨hn1, hn2⟩ := h n (Nat.lt_succ_self n) (pureLoop g n s)
    constructor
    · rintro p ⟨i, hi, hW⟩
      show g n (pureLoop g n s) p = v p
      by_cases hWn : W n p
      · exact hn1 p hWn
      · rw [hn2 p hWn]
        apply ih1
        rcases Nat.lt_succ_iff_lt_or_eq.mp hi with h1 | h1
        · exact ⟨i, h1, hW⟩
        · subst h1
          exact absurd hW hWn
    · intro p hp
      show g n (pureLoop g n s) p = s p
      have hWn : ¬ W n p := fun hW => hp ⟨n, Nat.lt_succ_self n, hW⟩
      rw [hn2 p hWn]
      apply ih2
      rintro ⟨i, hi, hW⟩
      exact hp ⟨i, Nat.lt_succ_of_lt hi, hW⟩

/-- A loop nest that stores `val i j k` at the linear index of each cell:
afterwards every cell holds its value and every other offset is untouched. -/
theorem pureNest_writes {α : Type} (nx ny nz : Int) (val : Int → Int → Int → α)
    (s : Int → α) :
    (∀ i j k : Int, 0 ≤ i → i < nx → 0 ≤ j → j < ny → 0 ≤ k → k < nz →
      pureNest nx ny nz
        (fun i j k sk => Function.update sk (linearIndex ny nz i j k) (val i j k)) s
        (linearIndex ny nz i j k) = val i j k)
    ∧ (∀ p : Int, (¬ ∃ i j k : Int, 0 ≤ i ∧ i < nx ∧ 0 ≤ j ∧ j < ny ∧ 0 ≤ k ∧ k < nz
          ∧ p = linearIndex ny nz i j k) →
      pureNest nx ny nz
        (fun i j k sk => Function.update sk (linearIndex ny nz i j k) (val i j k)) s p = s p) := by
  let v : Int → α := fun p =>
    val (cellOf ny nz p).1 (cellOf ny nz p).2.1 (cellOf ny nz p).2.2
  have hk : ∀ i j : Nat, j < ny.toNat → ∀ k : Nat, k < nz.toNat → ∀ sk : Int → α,
      (∀ p, p = linearIndex ny nz i j k →
          Function.update sk (linearIndex ny nz i j k) (val i j k) p = v p)
      ∧ (∀ p, ¬ p = linearIndex ny nz i j k →
          Function.update sk (linearIndex ny nz i j k) (val i j k) p = sk p) := by
    intro i j hj k hk sk
    constructor
    · intro p hp
      subst hp
      have := @cellOf_linearIndex ny nz (i : Int) (j : Int) (k : Int)
        (by omega) (by omega) (by omega) (by omega)
      simp [v, this]
    · intro p hp
      simp [Function.update, hp]
  have hj : ∀ i : Nat, ∀ j : Nat, j < ny.toNat → ∀ sj : Int → α, _ :=
    fun i j hj sj => pureLoop_writes
      (fun (k : Int) sk => Function.update sk (linearIndex ny nz i j k) (val i j k))
      (fun k p => p = linearIndex ny nz i j k) v nz.toNat (fun k hk2 => hk i j hj k hk2) sj
  have hi : ∀ i : Nat, i < nx.toNat → ∀ si : Int → α, _ :=
    fun i _ si => pureLoop_writes
      (fun (j : Int) sj => pureLoop
        (fun (k : Int) sk => Function.update sk (linearIndex ny nz i j k) (val i j k))
        nz.toNat sj)
      (fun j p => ∃ k : Nat, k < nz.toNat ∧ p = linearIndex ny nz i j k) v ny.toNat
      (fun j hj2 => hj i j hj2) si
  have hall := pureLoop_writes
      (fun (i : Int) si => pureLoop (fun (j : Int) sj => pureLoop
        (fun (k : Int) sk => Function.update sk (linearIndex ny nz i j k) (val i j k))
        nz.toNat sj) ny.toNat si)
      (fun i p => ∃ j : Nat, j < ny.toNat ∧ ∃ k : Nat, k < nz.toNat
        ∧ p = linearIndex ny nz i j k) v nx.toNat
      (fun i hi2 => hi i hi2) s
  obtain ⟨hall1, hall2⟩ := hall
  constructor
  · intro i j k hi1 hi2 hj1 hj2 hk1 hk2
    have hc := @cellOf_linearIndex ny nz i j k
      hj1 hj2 hk1 hk2
    have := hall1 (linearIndex ny nz i j k)
      ⟨i.toNat, by omega, j.toNat, by omega, k.toNat, by omega, by
        simp [Int.toNat_of_nonneg hi1, Int.toNat_of_nonneg hj1, Int.toNat_of_nonneg hk1]⟩
    unfold pureNest
    rw [this]
    simp [v, hc]
  · intro p hp
    unfold pureNest
    apply hall2
    rintro ⟨i, hi2, j, hj2, k, hk2, hpe⟩
    exact hp ⟨i, j, k, by omega, by omega, by omega, by omega, by omega, by omega, hpe⟩

/-- An accumulating loop adds the sum of its terms. -/
theorem pureLoop_sum {α : Type} [Field α] (t : Int → α) (n : Nat) (s : α) :
    pureLoop (fun i acc => acc + t i) n s = s + ∑ i in Finset.range n, t (i : Int) := by
  induction n with
  | zero => simp [pureLoop]
  | succ n ih => simp [pureLoop, ih, Finset.sum_range_succ, add_assoc]

/-- An accumulating loop nest adds the sum over all cells. -/
theorem pureNest_sum {α : Type} [Field α] (nx ny nz : Int) (t : Int → Int → Int → α) (s : α) :
    pureNest nx ny nz (fun i j k acc => acc + t i j k) s = s + cellSum nx ny nz t := by
  unfold pureNest cellSum
  have h1 : ∀ i j : Int, (fun sj => pureLoop (fun k acc => acc + t i j k) nz.toNat sj)
      = fun sj => sj + ∑ k in Finset.range nz.toNat, t i j (k : Int) := by
    intro i j
    funext sj
    exact pureLoop_sum (fun k => t i j k) nz.toNat sj
  simp only [h1]
  have h2 : ∀ i : Int, (fun si => pureLoop
      (fun j sj => sj + ∑ k in Finset.range nz.toNat, t i j (k : Int)) ny.toNat si)
      = fun si => si + ∑ j in Finset.range ny.toNat,
          ∑ k in Finset.range nz.toNat, t i (j : Int) (k : Int) := by
    intro i
    funext si
    exact pureLoop_sum (fun j => ∑ k in Finset.range nz.toNat, t i j (k : Int)) ny.toNat si
  simp only [h2]
  exact pureLoop_sum _ nx.toNat s

/-- A sum of non-negative terms over the cells is non-negative. -/
theorem cellSum_nonneg {α : Type} [LinearOrderedField α] (nx ny nz : Int)
    (t : Int → Int → Int → α) (h : ∀ i j k, 0 ≤ t i j k) : 0 ≤ cellSum nx ny nz t := by
  unfold cellSum
  exact Finset.sum_nonneg fun (i : Nat) _ => Finset.sum_nonneg fun (j : Nat) _ =>
    Finset.sum_nonneg fun (k : Nat) _ => h i j k

/-- A sum of non-negative terms over the cells vanishes exactly when every
term of a cell of the grid does. -/
theorem cellSum_eq_zero_iff {α : Type} [LinearOrderedField α] (nx ny nz : Int)
    (t : Int → Int → Int → α) (h : ∀ i j k, 0 ≤ t i j k) :
    cellSum nx ny nz t = 0 ↔
      ∀ i j k : Int, 0 ≤ i → i < nx → 0 ≤ j → j < ny → 0 ≤ k → k < nz → t i j k = 0 := by
  unfold cellSum
  rw [Finset.sum_eq_zero_iff_of_nonneg
    (fun (i : Nat) _ => Finset.sum_nonneg fun (j : Nat) _ =>
      Finset.sum_nonneg fun (k : Nat) _ => h i j k)]
  constructor
  · intro H i j k hi1 hi2 hj1 hj2 hk1 hk2
    have H1 := H i.toNat (Finset.mem_range.mpr (by omega))
    rw [Finset.sum_eq_zero_iff_of_nonneg
      (fun (j : Nat) _ => Finset.sum_nonneg fun (k : Nat) _ => h _ j k)] at H1
    have H2 := H1 j.toNat (Finset.mem_range.mpr (by omega))
    rw [Finset.sum_eq_zero_iff_of_nonneg (fun (k : Nat) _ => h _ _ k)] at H2
    have H3 := H2 k.toNat (Finset.mem_range.mpr (by omega))
    simpa [Int.toNat_of_nonneg hi1, Int.toNat_of_nonneg hj1, Int.toNat_of_nonneg hk1] using H3
  · intro H i hi
    rw [Finset.sum_eq_zero_iff_of_nonneg
      (fun (j : Nat) _ => Finset.sum_nonneg fun (k : Nat) _ => h _ j k)]
    intro j hj
    rw [Finset.sum_eq_zero_iff_of_nonneg (fun (k : Nat) _ => h _ _ k)]
    intro k hk
    have := Finset.mem_range.mp hi
    have := Finset.mem_range.mp hj
    have := Finset.mem_range.mp hk
    exact H i j k (by omega) (by omega) (by omega) (by omega) (by omega) (by omega)

/-- Without overflow the seven indices of a cell of the grid are defined. -/
theorem stencilIndices_eq_some {nx ny nz i j k : Int}
    (hi : 0 ≤ i) (hi2 : i < nx) (hj : 0 ≤ j) (hj2 : j < ny) (hk : 0 ≤ k) (hk2 : k < nz)
    (hN : nx * ny * nz ≤ 2147483647) :
    stencilIndices nx ny nz i j k = some (pureStencilIndices nx ny nz i j k) := by
  obtain ⟨h1, h2, h3, h4, h5, h6, h7⟩ := linearIndex_bounds hi hi2 hj hj2 hk hk2
  have hxy : 1 * 1 ≤ nx * ny := mul_le_mul (by omega) (by omega) (by omega) (by omega)
  have hnx : nx ≤ nx * ny := by
    have : nx * 1 ≤ nx * ny := mul_le_mul_of_nonneg_left (by omega) (by omega)
    omega
  have hny : ny ≤ nx * ny := by
    have : 1 * ny ≤ nx * ny := mul_le_mul_of_nonneg_right (by omega) (by omega)
    omega
  have hnz : nz ≤ nx * ny * nz := by
    have : 1 * nz ≤ nx * ny * nz := mul_le_mul_of_nonneg_right (by omega) (by omega)
    omega
  have a1 : int32 (i + 1) = some (i + 1) := int32_of_range (by omega) (by omega)
  have a2 : int32 (nx - 1) = some (nx - 1) := int32_of_range (by omega) (by omega)
  have a3 : int32 (i - 1) = some (i - 1) := int32_of_range (by omega) (by omega)
  have b1 : int32 (j + 1) = some (j + 1) := int32_of_range (by omega) (by omega)
  have b2 : int32 (ny - 1) = some (ny - 1) := int32_of_range (by omega) (by omega)
  have b3 : int32 (j - 1) = some (j - 1) := int32_of_range (by omega) (by omega)
  have c1 : int32 (k + 1) = some (k + 1) := int32_of_range (by omega) (by omega)
  have c2 : int32 (nz - 1) = some (nz - 1) := int32_of_range (by omega) (by omega)
  have c3 : int32 (k - 1) = some (k - 1) := int32_of_range (by omega) (by omega)
  have e0 := INDEX_eq_some hi hi2 hj hj2 hk hk2 hN
  have e1 : INDEX nx ny nz (IMIN (i + 1) (nx - 1)) j k = some _ :=
    INDEX_eq_some (by unfold IMIN; split <;> omega) (by unfold IMIN; split <;> omega)
      hj hj2 hk hk2 hN
  have e2 : INDEX nx ny nz (IMAX (i - 1) 0) j k = some _ :=
    INDEX_eq_some (by unfold IMAX; split <;> omega) (by unfold IMAX; split <;> omega)
      hj hj2 hk hk2 hN
  have e3 : INDEX nx ny nz i (IMIN (j + 1) (ny - 1)) k = some _ :=
    INDEX_eq_some hi hi2 (by unfold IMIN; split <;> omega) (by unfold IMIN; split <;> omega)
      hk hk2 hN
  have e4 : INDEX nx ny nz i (IMAX (j - 1) 0) k = some _ :=
    INDEX_eq_some hi hi2 (by unfold IMAX; split <;> omega) (by unfold IMAX; split <;> omega)
      hk hk2 hN
  have e5 : INDEX nx ny nz i j (IMIN (k + 1) (nz - 1)) = some _ :=
    INDEX_eq_some hi hi2 hj hj2 (by unfold IMIN; split <;> omega)
      (by unfold IMIN; split <;> omega) hN
  have e6 : INDEX nx ny nz i j (IMAX (k - 1) 0) = some _ :=
    INDEX_eq_some hi hi2 hj hj2 (by unfold IMAX; split <;> omega)
      (by unfold IMAX; split <;> omega) hN
  simp [stencilIndices, pureStencilIndices, a1, a2, a3, b1, b2, b3, c1, c2, c3,
    e0, e1, e2, e3, e4, e5, e6]

/-- Without overflow the product `nx * ny * nz` is defined in `int`. -/
theorem cellCount_eq_some {nx ny nz : Int} (hx : 1 ≤ nx) (hy : 1 ≤ ny) (hz : 1 ≤ nz)
    (hN : nx * ny * nz ≤ 2147483647) :
    int32 (nx * ny) = some (nx * ny) ∧ int32 (nx * ny * nz) = some (nx * ny * nz) := by
  have hxy : 1 * 1 ≤ nx * ny := mul_le_mul (by omega) (by omega) (by omega) (by omega)
  have h8 : nx * ny * 1 ≤ nx * ny * nz := mul_le_mul_of_nonneg_left (by omega) (by omega)
  exact ⟨int32_of_range (by omega) (by omega), int32_of_range (by omega) (by omega)⟩

/-- Without overflow `diffusion3d` returns a result: the stencil field and
thirteen times the cell count. -/
theorem diffusion3d_eq_some {α : Type} [Field α] (nx ny nz : Int) (dx dy dz dt kappa : α)
    (f fn : Int → α) (hx : 1 ≤ nx) (hy : 1 ≤ ny) (hz : 1 ≤ nz)
    (hN : nx * ny * nz ≤ 2147483647) :
    diffusion3d nx ny nz dx dy dz dt kappa f fn
      = some (diffusion3dField nx ny nz dx dy dz dt kappa f fn,
              ((nx * ny * nz : Int) : α) * 13) := by
  obtain ⟨hp, hq⟩ := cellCount_eq_some hx hy hz hN
  have hloop := loopNest_eq_some nx ny nz
    (diffusion3dBody nx ny nz (coefficients dx dy dz dt kappa) f)
    (fun i j k sk => Function.update sk (linearIndex ny nz i j k)
      (stencilValue (coefficients dx dy dz dt kappa) f (pureStencilIndices nx ny nz i j k)))
    (by
      intro i j k hi hj hk s
      have := @stencilIndices_eq_some nx ny nz i j k (by omega) (by omega) (by omega)
        (by omega) (by omega) (by omega) hN
      simp [diffusion3dBody, this, pureStencilIndices]) fn
  simp [diffusion3d, diffusion3dCost, hloop, hp, hq, diffusion3dField]

/-! ## Lemmas: init and accuracy -/

/-- Without overflow `init` returns the initial field. -/
theorem init_eq_some {α : Type} [Field α] (cosf : α → α) (pi : α) (nx ny nz : Int)
    (dx dy dz : α) (f : Int → α) (hN : nx * ny * nz ≤ 2147483647) :
    init cosf pi nx ny nz dx dy dz f = some (initField cosf pi nx ny nz dx dy dz f) := by
  unfold init initField
  apply loopNest_eq_some
  intro i j k hi hj hk s
  have := @INDEX_eq_some nx ny nz i j k (by omega) (by omega) (by omega)
    (by omega) (by omega) (by omega) hN
  simp [initBody, this]

/-- Every cell of the initial field holds its initial value. -/
theorem initField_cell {α : Type} [Field α] (cosf : α → α) (pi : α) (nx ny nz : Int)
    (dx dy dz : α) (f : Int → α) (i j k : Int)
    (hi : 0 ≤ i) (hi2 : i < nx) (hj : 0 ≤ j) (hj2 : j < ny) (hk : 0 ≤ k) (hk2 : k < nz) :
    initField cosf pi nx ny nz dx dy dz f (linearIndex ny nz i j k)
      = initValue cosf pi dx dy dz i j k :=
  (pureNest_writes nx ny nz (fun i j k => initValue cosf pi dx dy dz i j k) f).1
    i j k hi hi2 hj hj2 hk hk2

/-- Every cell of the field after `diffusion3d` holds its stencil value. -/
theorem diffusion3dField_cell {α : Type} [Field α] (nx ny nz : Int) (dx dy dz dt kappa : α)
    (f fn : Int → α) (i j k : Int)
    (hi : 0 ≤ i) (hi2 : i < nx) (hj : 0 ≤ j) (hj2 : j < ny) (hk : 0 ≤ k) (hk2 : k < nz) :
    diffusion3dField nx ny nz dx dy dz dt kappa f fn (linearIndex ny nz i j k)
      = stencilValue (coefficients dx dy dz dt kappa) f (pureStencilIndices nx ny nz i j k) :=
  (pureNest_writes nx ny nz
    (fun i j k => stencilValue (coefficients dx dy dz dt kappa) f
      (pureStencilIndices nx ny nz i j k)) fn).1 i j k hi hi2 hj hj2 hk hk2

/-- Without overflow `accuracy` returns the square root of the mean squared
error over the cells. -/
theorem accuracy_eq_some {α : Type} [Field α] (cosf expf sqrt : α → α) (pi : α) (time : α)
    (nx ny nz : Int) (dx dy dz kappa : α) (f : Int → α)
    (hx : 1 ≤ nx) (hy : 1 ≤ ny) (hz : 1 ≤ nz) (hN : nx * ny * nz ≤ 2147483647) :
    accuracy cosf expf sqrt pi time nx ny nz dx dy dz kappa f
      = some (sqrt (cellSum nx ny nz (squaredError cosf expf pi time ny nz dx dy dz kappa f)
          / ((nx * ny * nz : Int) : α))) := by
  obtain ⟨hp, hq⟩ := cellCount_eq_some hx hy hz hN
  have hloop := loopNest_eq_some nx ny nz
    (accuracyBody cosf expf pi time nx ny nz dx dy dz kappa f)
    (fun i j k acc => acc + squaredError cosf expf pi time ny nz dx dy dz kappa f i j k)
    (by
      intro i j k hi hj hk s
      have := @INDEX_eq_some nx ny nz i j k (by omega) (by omega) (by omega)
        (by omega) (by omega) (by omega) hN
      simp [accuracyBody, this, squaredError]) (0 : α)
  rw [pureNest_sum] at hloop
  simp [accuracy, hloop, hp, hq]

/-- The sum over the cells only depends on the terms of the cells of the grid. -/
theorem cellSum_congr {α : Type} [Field α] (nx ny nz : Int) (t u : Int → Int → Int → α)
    (h : ∀ i j k : Int, 0 ≤ i → i < nx → 0 ≤ j → j < ny → 0 ≤ k → k < nz →
      t i j k = u i j k) :
    cellSum nx ny nz t = cellSum nx ny nz u := by
  unfold cellSum
  refine Finset.sum_congr rfl fun i hi => Finset.sum_congr rfl fun j hj =>
    Finset.sum_congr rfl fun k hk => ?_
  have := Finset.mem_range.mp hi
  have := Finset.mem_range.mp hj
  have := Finset.mem_range.mp hk
  exact h i j k (by omega) (by omega) (by omega) (by omega) (by omega) (by omega)

/-- At `time = 0`, with `expf 0 = 1`, the analytic value of a cell is its
initial value. -/
theorem analyticValue_zero {α : Type} [Field α] (cosf expf : α → α) (pi : α)
    (dx dy dz kappa : α) (i j k : Int) (hexp : expf 0 = 1) :
    analyticValue cosf expf pi 0 dx dy dz kappa i j k = initValue cosf pi dx dy dz i j k := by
  simp [analyticValue, initValue, decayFactor, hexp]

/-- Without overflow `accuracy` returns a non-negative value, which is zero
exactly when every cell of the field holds its analytic value. -/
theorem accuracy_spec {α : Type} [LinearOrderedField α] (cosf expf sqrt : α → α) (pi : α)
    (time : α) (nx ny nz : Int) (dx dy dz kappa : α) (f : Int → α)
    (hsqrt0 : ∀ x, 0 ≤ x → 0 ≤ sqrt x) (hsqrt : ∀ x, 0 ≤ x → (sqrt x = 0 ↔ x = 0))
    (hx : 1 ≤ nx) (hy : 1 ≤ ny) (hz : 1 ≤ nz) (hN : nx * ny * nz ≤ 2147483647) :
    ∃ a, accuracy cosf expf sqrt pi time nx ny nz dx dy dz kappa f = some a ∧ 0 ≤ a
      ∧ (a = 0 ↔ ∀ i j k : Int, 0 ≤ i → i < nx → 0 ≤ j → j < ny → 0 ≤ k → k < nz →
          f (linearIndex ny nz i j k)
            = analyticValue cosf expf pi time dx dy dz kappa i j k) := by
  refine ⟨_, accuracy_eq_some cosf expf sqrt pi time nx ny nz dx dy dz kappa f hx hy hz hN,
    ?_, ?_⟩
  · apply hsqrt0
    apply div_nonneg
    · exact cellSum_nonneg _ _ _ _ (fun i j k => mul_self_nonneg _)
    · exact_mod_cast (by positivity : (0 : Int) ≤ nx * ny * nz)
  · have hpos : (0 : α) < ((nx * ny * nz : Int) : α) := by
      have : (0 : Int) < nx * ny * nz := by positivity
      exact_mod_cast this
    have hS := cellSum_nonneg nx ny nz
      (squaredError cosf expf pi time ny nz dx dy dz kappa f) (fun i j k => mul_self_nonneg _)
    rw [hsqrt _ (div_nonneg hS hpos.le), div_eq_zero_iff,
      cellSum_eq_zero_iff _ _ _ _ (fun i j k => mul_self_nonneg _)]
    constructor
    · rintro (H | H)
      · intro i j k hi1 hi2 hj1 hj2 hk1 hk2
        have := H i j k hi1 hi2 hj1 hj2 hk1 hk2
        simpa [squaredError, sub_eq_zero] using this
      · exact absurd H hpos.ne'
    · intro H
      left
      intro i j k hi1 hi2 hj1 hj2 hk1 hk2
      simp [squaredError, H i j k hi1 hi2 hj1 hj2 hk1 hk2]

/-! ## Lemmas: unit spacing and the decay factor -/

/-- With unit spacing every cell centre is a half-integer, where
`cos (2 pi x) = -1`. -/
theorem cos_cellCentre_one (i : Int) :
    Real.cos (2 * Real.pi * cellCentre (1 : ℝ) i) = -1 := by
  have h : 2 * Real.pi * cellCentre (1 : ℝ) i = Real.pi + (i : ℝ) * (2 * Real.pi) := by
    unfold cellCentre
    ring
  rw [h, Real.cos_add_int_mul_two_pi, Real.cos_pi]

/-- With unit spacing the analytic value of every cell is `(1 + a)^3 / 8`
for the decay factor `a`. -/
theorem analyticValue_unit_spacing (time kappa : ℝ) (i j k : Int) :
    analyticValue Real.cos Real.exp Real.pi time 1 1 1 kappa i j k
      = (1 + decayFactor Real.exp Real.pi kappa time) ^ 3 / 8 := by
  simp only [analyticValue, cos_cellCentre_one]
  ring

/-- For `kappa > 0` the decay factor is strictly decreasing in time. -/
theorem decayFactor_strictAnti (kappa t1 t2 : ℝ) (hk : 0 < kappa) (ht : t1 < t2) :
    decayFactor Real.exp Real.pi kappa t2 < decayFactor Real.exp Real.pi kappa t1 := by
  unfold decayFactor
  apply Real.exp_lt_exp.mpr
  have hpi : 0 < 2 * Real.pi * (2 * Real.pi) := by positivity
  have : kappa * t1 < kappa * t2 := mul_lt_mul_of_pos_left ht hk
  have := mul_lt_mul_of_pos_right this hpi
  linarith

/-! ## Lemmas: undefined calls and bounds of the stencil -/

/-- On the grid 2048 x 2048 x 2048 the index of cell `(512, 0, 0)` overflows:
`diffusion3d` has no result, whatever the parameters and the buffers. -/
theorem diffusion3d_undefined_2048 {α : Type} [Field α] (dx dy dz dt kappa : α)
    (f fn : Int → α) : diffusion3d 2048 2048 2048 dx dy dz dt kappa f fn = none := by
  have hidx : stencilIndices 2048 2048 2048 512 0 0 = none := by
    have h : INDEX 2048 2048 2048 512 0 0 = none := by decide
    rw [stencilIndices, h]
    rfl
  have hbody : ∀ s : Int → α,
      diffusion3dBody 2048 2048 2048 (coefficients dx dy dz dt kappa) f
        ((512 : Nat) : Int) ((0 : Nat) : Int) ((0 : Nat) : Int) s = none := by
    intro s
    show diffusion3dBody 2048 2048 2048 _ _ 512 0 0 s = none
    rw [diffusion3dBody, hidx]
    rfl
  have hloop := loopNest_eq_none 2048 2048 2048
    (diffusion3dBody 2048 2048 2048 (coefficients dx dy dz dt kappa) f)
    512 0 0 (by decide) (by decide) (by decide) hbody fn
  rw [diffusion3d, hloop]
  rfl

/-- When the product `nx * ny * nz` overflows, `diffusion3d` has no result. -/
theorem diffusion3d_undefined_of_cost {α : Type} [Field α] (nx ny nz : Int)
    (dx dy dz dt kappa : α) (f fn : Int → α)
    (h : diffusion3dCost nx ny nz = (none : Option α)) :
    diffusion3d nx ny nz dx dy dz dt kappa f fn = none := by
  cases hl : loopNest nx ny nz (diffusion3dBody nx ny nz (coefficients dx dy dz dt kappa) f) fn with
  | none => simp [diffusion3d, hl]
  | some fn1 => simp [diffusion3d, hl, h]

/-- A combination with non-negative weights of sum one of values `≥ m` is
`≥ m`. -/
theorem convex_seven_ge {α : Type} [LinearOrderedField α] (c0 c1 c2 c3 c4 c5 c6 : α)
    (a0 a1 a2 a3 a4 a5 a6 m : α)
    (h0 : 0 ≤ c0) (h1 : 0 ≤ c1) (h2 : 0 ≤ c2) (h3 : 0 ≤ c3) (h4 : 0 ≤ c4) (h5 : 0 ≤ c5)
    (h6 : 0 ≤ c6) (hsum : c0 + c1 + c2 + c3 + c4 + c5 + c6 = 1)
    (g0 : m ≤ a0) (g1 : m ≤ a1) (g2 : m ≤ a2) (g3 : m ≤ a3) (g4 : m ≤ a4) (g5 : m ≤ a5)
    (g6 : m ≤ a6) :
    m ≤ c0 * a0 + c1 * a1 + c2 * a2 + c3 * a3 + c4 * a4 + c5 * a5 + c6 * a6 := by
  have e : c0 * a0 + c1 * a1 + c2 * a2 + c3 * a3 + c4 * a4 + c5 * a5 + c6 * a6
      = m + (c0 * (a0 - m) + c1 * (a1 - m) + c2 * (a2 - m) + c3 * (a3 - m) + c4 * (a4 - m)
        + c5 * (a5 - m) + c6 * (a6 - m)) := by
    linear_combination m * hsum
  rw [e]
  have p0 := mul_nonneg h0 (sub_nonneg.mpr g0)
  have p1 := mul_nonneg h1 (sub_nonneg.mpr g1)
  have p2 := mul_nonneg h2 (sub_nonneg.mpr g2)
  have p3 := mul_nonneg h3 (sub_nonneg.mpr g3)
  have p4 := mul_nonneg h4 (sub_nonneg.mpr g4)
  have p5 := mul_nonneg h5 (sub_nonneg.mpr g5)
  have p6 := mul_nonneg h6 (sub_nonneg.mpr g6)
  linarith

/-- A combination with non-negative weights of sum one of values `≤ M` is
`≤ M`. -/
theorem convex_seven_le {α : Type} [LinearOrderedField α] (c0 c1 c2 c3 c4 c5 c6 : α)
    (a0 a1 a2 a3 a4 a5 a6 M : α)
    (h0 : 0 ≤ c0) (h1 : 0 ≤ c1) (h2 : 0 ≤ c2) (h3 : 0 ≤ c3) (h4 : 0 ≤ c4) (h5 : 0 ≤ c5)
    (h6 : 0 ≤ c6) (hsum : c0 + c1 + c2 + c3 + c4 + c5 + c6 = 1)
    (g0 : a0 ≤ M) (g1 : a1 ≤ M) (g2 : a2 ≤ M) (g3 : a3 ≤ M) (g4 : a4 ≤ M) (g5 : a5 ≤ M)
    (g6 : a6 ≤ M) :
    c0 * a0 + c1 * a1 + c2 * a2 + c3 * a3 + c4 * a4 + c5 * a5 + c6 * a6 ≤ M := by
  have e : c0 * a0 + c1 * a1 + c2 * a2 + c3 * a3 + c4 * a4 + c5 * a5 + c6 * a6
      = M - (c0 * (M - a0) + c1 * (M - a1) + c2 * (M - a2) + c3 * (M - a3) + c4 * (M - a4)
        + c5 * (M - a5) + c6 * (M - a6)) := by
    linear_combination M * hsum
  rw [e]
  have p0 := mul_nonneg h0 (sub_nonneg.mpr g0)
  have p1 := mul_nonneg h1 (sub_nonneg.mpr g1)
  have p2 := mul_nonneg h2 (sub_nonneg.mpr g2)
  have p3 := mul_nonneg h3 (sub_nonneg.mpr g3)
  have p4 := mul_nonneg h4 (sub_nonneg.mpr g4)
  have p5 := mul_nonneg h5 (sub_nonneg.mpr g5)
  have p6 := mul_nonneg h6 (sub_nonneg.mpr g6)
  linarith

/-- For `kappa, dt ≥ 0` and `kappa * dt * (1/dx^2 + 1/dy^2 + 1/dz^2) ≤ 1/2` the
seven coefficients are non-negative. -/
theorem coefficients_nonneg {α : Type} [LinearOrderedField α] (dx dy dz dt kappa : α)
    (hkappa : 0 ≤ kappa) (hdt : 0 ≤ dt)
    (hS : kappa * dt * (1 / dx ^ 2 + 1 / dy ^ 2 + 1 / dz ^ 2) ≤ 1 / 2) :
    0 ≤ (coefficients dx dy dz dt kappa).cc ∧ 0 ≤ (coefficients dx dy dz dt kappa).ce
      ∧ 0 ≤ (coefficients dx dy dz dt kappa).cw ∧ 0 ≤ (coefficients dx dy dz dt kappa).cn
      ∧ 0 ≤ (coefficients dx dy dz dt kappa).cs ∧ 0 ≤ (coefficients dx dy dz dt kappa).ct
      ∧ 0 ≤ (coefficients dx dy dz dt kappa).cb := by
  have hkd : 0 ≤ kappa * dt := mul_nonneg hkappa hdt
  have hx : 0 ≤ kappa * dt / (dx * dx) := div_nonneg hkd (mul_self_nonneg dx)
  have hy : 0 ≤ kappa * dt / (dy * dy) := div_nonneg hkd (mul_self_nonneg dy)
  have hz : 0 ≤ kappa * dt / (dz * dz) := div_nonneg hkd (mul_self_nonneg dz)
  have hcc : 1 - (kappa * dt / (dx * dx) + kappa * dt / (dx * dx) + kappa * dt / (dy * dy)
      + kappa * dt / (dy * dy) + kappa * dt / (dz * dz) + kappa * dt / (dz * dz))
      = 1 - 2 * (kappa * dt * (1 / dx ^ 2 + 1 / dy ^ 2 + 1 / dz ^ 2)) := by
    ring
  refine ⟨?_, hx, hx, hy, hy, hz, hz⟩
  show 0 ≤ 1 - (kappa * dt / (dx * dx) + kappa * dt / (dx * dx) + kappa * dt / (dy * dy)
      + kappa * dt / (dy * dy) + kappa * dt / (dz * dz) + kappa * dt / (dz * dz))
  rw [hcc]
  linarith

/-- Under the condition of `coefficients_nonneg`, the stencil value of a cell
of the grid lies between any two bounds of the field on the grid. -/
theorem stencilValue_between {α : Type} [LinearOrderedField α] (nx ny nz : Int)
    (dx dy dz dt kappa : α) (f : Int → α) (m M : α)
    (hkappa : 0 ≤ kappa) (hdt : 0 ≤ dt)
    (hS : kappa * dt * (1 / dx ^ 2 + 1 / dy ^ 2 + 1 / dz ^ 2) ≤ 1 / 2)
    (hf : ∀ i j k : Int, 0 ≤ i → i < nx → 0 ≤ j → j < ny → 0 ≤ k → k < nz →
      m ≤ f (linearIndex ny nz i j k) ∧ f (linearIndex ny nz i j k) ≤ M)
    (i j k : Int) (hi : 0 ≤ i) (hi2 : i < nx) (hj : 0 ≤ j) (hj2 : j < ny)
    (hk : 0 ≤ k) (hk2 : k < nz) :
    m ≤ stencilValue (coefficients dx dy dz dt kappa) f (pureStencilIndices nx ny nz i j k)
      ∧ stencilValue (coefficients dx dy dz dt kappa) f (pureStencilIndices nx ny nz i j k)
          ≤ M := by
  obtain ⟨c0, c1, c2, c3, c4, c5, c6⟩ := coefficients_nonneg dx dy dz dt kappa hkappa hdt hS
  have hsum : (coefficients dx dy dz dt kappa).cc + (coefficients dx dy dz dt kappa).ce
      + (coefficients dx dy dz dt kappa).cw + (coefficients dx dy dz dt kappa).cn
      + (coefficients dx dy dz dt kappa).cs + (coefficients dx dy dz dt kappa).ct
      + (coefficients dx dy dz dt kappa).cb = 1 := by
    simp only [coefficients]
    ring
  have e0 := hf i j k hi hi2 hj hj2 hk hk2
  have e1 := hf (IMIN (i + 1) (nx - 1)) j k (by unfold IMIN; split <;> omega)
    (by unfold IMIN; split <;> omega) hj hj2 hk hk2
  have e2 := hf (IMAX (i - 1) 0) j k (by unfold IMAX; split <;> omega)
    (by unfold IMAX; split <;> omega) hj hj2 hk hk2
  have e3 := hf i (IMIN (j + 1) (ny - 1)) k hi hi2 (by unfold IMIN; split <;> omega)
    (by unfold IMIN; split <;> omega) hk hk2
  have e4 := hf i (IMAX (j - 1) 0) k hi hi2 (by unfold IMAX; split <;> omega)
    (by unfold IMAX; split <;> omega) hk hk2
  have e5 := hf i j (IMIN (k + 1) (nz - 1)) hi hi2 hj hj2 (by unfold IMIN; split <;> omega)
    (by unfold IMIN; split <;> omega)
  have e6 := hf i j (IMAX (k - 1) 0) hi hi2 hj hj2 (by unfold IMAX; split <;> omega)
    (by unfold IMAX; split <;> omega)
  exact ⟨convex_seven_ge _ _ _ _ _ _ _ _ _ _ _ _ _ _ m c0 c1 c2 c3 c4 c5 c6 hsum
      e0.1 e1.1 e2.1 e3.1 e4.1 e5.1 e6.1,
    convex_seven_le _ _ _ _ _ _ _ _ _ _ _ _ _ _ M c0 c1 c2 c3 c4 c5 c6 hsum
      e0.2 e1.2 e2.2 e3.2 e4.2 e5.2 e6.2⟩

/-! ## Lemmas: the linear index as a bijection -/

/-- Two cells with the same linear index are the same cell. -/
theorem linearIndex_injective {ny nz i j k i2 j2 k2 : Int}
    (hj : 0 ≤ j) (hj2 : j < ny) (hk : 0 ≤ k) (hk2 : k < nz)
    (gj : 0 ≤ j2) (gj2 : j2 < ny) (gk : 0 ≤ k2) (gk2 : k2 < nz)
    (h : linearIndex ny nz i j k = linearIndex ny nz i2 j2 k2) :
    i = i2 ∧ j = j2 ∧ k = k2 := by
  have e1 := @cellOf_linearIndex ny nz i j k hj hj2 hk hk2
  have e2 := @cellOf_linearIndex ny nz i2 j2 k2 gj gj2 gk gk2
  rw [h, e2] at e1
  simp only [Prod.mk.injEq] at e1
  exact ⟨e1.1.symm, e1.2.1.symm, e1.2.2.symm⟩

/-- Every offset of `[0, nx * ny * nz - 1]` is the linear index of a cell of
the grid. -/
theorem linearIndex_surjective {nx ny nz p : Int} (hy : 1 ≤ ny) (hz : 1 ≤ nz)
    (hp : 0 ≤ p) (hp2 : p ≤ nx * ny * nz - 1) :
    ∃ i j k : Int, 0 ≤ i ∧ i < nx ∧ 0 ≤ j ∧ j < ny ∧ 0 ≤ k ∧ k < nz
      ∧ linearIndex ny nz i j k = p := by
  have hnz : 0 < nz := by omega
  have hny : 0 < ny := by omega
  have hq0 : 0 ≤ p / nz := Int.ediv_nonneg hp hnz.le
  have hq1 : p / nz < nx * ny := Int.ediv_lt_of_lt_mul hnz (by omega)
  refine ⟨p / nz / ny, p / nz % ny, p % nz, Int.ediv_nonneg hq0 hny.le,
    Int.ediv_lt_of_lt_mul hny hq1, Int.emod_nonneg _ (by omega), Int.emod_lt_of_pos _ hny,
    Int.emod_nonneg _ (by omega), Int.emod_lt_of_pos _ hnz, ?_⟩
  unfold linearIndex
  rw [Int.emod_add_ediv (p / nz) ny, Int.emod_add_ediv p nz]

/-- Without overflow all seven indices of a cell of the grid are offsets of
`[0, nx * ny * nz - 1]`. -/
theorem pureStencilIndices_bounds {nx ny nz i j k : Int}
    (hi : 0 ≤ i) (hi2 : i < nx) (hj : 0 ≤ j) (hj2 : j < ny) (hk : 0 ≤ k) (hk2 : k < nz) :
    (0 ≤ (pureStencilIndices nx ny nz i j k).ix
        ∧ (pureStencilIndices nx ny nz i j k).ix ≤ nx * ny * nz - 1)
    ∧ (0 ≤ (pureStencilIndices nx ny nz i j k).ip
        ∧ (pureStencilIndices nx ny nz i j k).ip ≤ nx * ny * nz - 1)
    ∧ (0 ≤ (pureStencilIndices nx ny nz i j k).im
        ∧ (pureStencilIndices nx ny nz i j k).im ≤ nx * ny * nz - 1)
    ∧ (0 ≤ (pureStencilIndices nx ny nz i j k).jp
        ∧ (pureStencilIndices nx ny nz i j k).jp ≤ nx * ny * nz - 1)
    ∧ (0 ≤ (pureStencilIndices nx ny nz i j k).jm
        ∧ (pureStencilIndices nx ny nz i j k).jm ≤ nx * ny * nz - 1)
    ∧ (0 ≤ (pureStencilIndices nx ny nz i j k).kp
        ∧ (pureStencilIndices nx ny nz i j k).kp ≤ nx * ny * nz - 1)
    ∧ (0 ≤ (pureStencilIndices nx ny nz i j k).km
        ∧ (pureStencilIndices nx ny nz i j k).km ≤ nx * ny * nz - 1) := by
  have key : ∀ a b c : Int, 0 ≤ a → a < nx → 0 ≤ b → b < ny → 0 ≤ c → c < nz →
      0 ≤ linearIndex ny nz a b c ∧ linearIndex ny nz a b c ≤ nx * ny * nz - 1 := by
    intro a b c ha ha2 hb hb2 hc hc2
    obtain ⟨h1, h2, h3, h4, h5, h6, h7⟩ := linearIndex_bounds ha ha2 hb hb2 hc hc2
    exact ⟨by omega, h6⟩
  refine ⟨key i j k hi hi2 hj hj2 hk hk2,
    key _ j k (by unfold IMIN; split <;> omega) (by unfold IMIN; split <;> omega) hj hj2 hk hk2,
    key _ j k (by unfold IMAX; split <;> omega) (by unfold IMAX; split <;> omega) hj hj2 hk hk2,
    key i _ k hi hi2 (by unfold IMIN; split <;> omega) (by unfold IMIN; split <;> omega) hk hk2,
    key i _ k hi hi2 (by unfold IMAX; split <;> omega) (by unfold IMAX; split <;> omega) hk hk2,
    key i j _ hi hi2 hj hj2 (by unfold IMIN; split <;> omega) (by unfold IMIN; split <;> omega),
    key i j _ hi hi2 hj hj2 (by unfold IMAX; split <;> omega) (by unfold IMAX; split <;> omega)⟩

/-- The clamped successor of a coordinate stays on the axis, at distance at
most one. -/
theorem IMIN_succ_range {n i : Int} (hi : 0 ≤ i) (hi2 : i < n) :
    0 ≤ IMIN (i + 1) (n - 1) ∧ IMIN (i + 1) (n - 1) ≤ n - 1
      ∧ i ≤ IMIN (i + 1) (n - 1) ∧ IMIN (i + 1) (n - 1) ≤ i + 1 := by
  unfold IMIN
  split <;> omega

/-- The clamped predecessor of a coordinate stays on the axis, at distance at
most one. -/
theorem IMAX_pred_range {n i : Int} (hi : 0 ≤ i) (hi2 : i < n) :
    0 ≤ IMAX (i - 1) 0 ∧ IMAX (i - 1) 0 ≤ n - 1
      ∧ i - 1 ≤ IMAX (i - 1) 0 ∧ IMAX (i - 1) 0 ≤ i := by
  unfold IMAX
  split <;> omega

/-! ## Lemmas: sums of clamped neighbours -/

/-- Along one axis the clamped successors and the clamped predecessors
together visit every coordinate twice. -/
theorem sum_clamped_neighbours {α : Type} [Field α] (n : Int) (hn : 1 ≤ n) (g : Int → α) :
    ∑ i in Finset.range n.toNat, g (IMIN ((i : Int) + 1) (n - 1))
      + ∑ i in Finset.range n.toNat, g (IMAX ((i : Int) - 1) 0)
    = ∑ i in Finset.range n.toNat, g (i : Int) + ∑ i in Finset.range n.toNat, g (i : Int) := by
  obtain ⟨m, hm⟩ : ∃ m : Nat, n = (m : Int) + 1 := ⟨(n - 1).toNat, by omega⟩
  subst hm
  have ht : ((m : Int) + 1).toNat = m + 1 := by omega
  rw [ht]
  have h1 : ∑ i in Finset.range (m + 1), g (IMIN ((i : Int) + 1) ((m : Int) + 1 - 1))
      = ∑ i in Finset.range m, g ((i : Int) + 1) + g (m : Int) := by
    rw [Finset.sum_range_succ]
    congr 1
    · apply Finset.sum_congr rfl
      intro i hi
      have := Finset.mem_range.mp hi
      congr 1
      unfold IMIN
      split <;> omega
    · congr 1
      unfold IMIN
      split <;> omega
  have h2 : ∑ i in Finset.range (m + 1), g (IMAX ((i : Int) - 1) 0)
      = ∑ i in Finset.range m, g (i : Int) + g 0 := by
    rw [Finset.sum_range_succ']
    congr 1
    · apply Finset.sum_congr rfl
      intro i _
      congr 1
      unfold IMAX
      push_cast
      split <;> omega
  have h3 : ∑ i in Finset.range (m + 1), g (i : Int)
      = ∑ i in Finset.range m, g (i : Int) + g (m : Int) := Finset.sum_range_succ _ _
  have h4 : ∑ i in Finset.range (m + 1), g (i : Int)
      = ∑ i in Finset.range m, g ((i : Int) + 1) + g 0 := by
    rw [Finset.sum_range_succ']
    push_cast
    rfl
  rw [h1, h2]
  nth_rewrite 1 [h4]
  rw [h3]
  ring

/-- The seven-point update with clamped neighbours and equal weights on the
two faces of each axis keeps the sum over the cells. -/
theorem cellSum_stencil {α : Type} [Field α] (nx ny nz : Int)
    (hx : 1 ≤ nx) (hy : 1 ≤ ny) (hz : 1 ≤ nz) (a b d : α) (F : Int → Int → Int → α) :
    cellSum nx ny nz (fun i j k =>
        (1 - (a + a + b + b + d + d)) * F i j k
          + a * F (IMIN (i + 1) (nx - 1)) j k + a * F (IMAX (i - 1) 0) j k
          + b * F i (IMIN (j + 1) (ny - 1)) k + b * F i (IMAX (j - 1) 0) k
          + d * F i j (IMIN (k + 1) (nz - 1)) + d * F i j (IMAX (k - 1) 0))
      = cellSum nx ny nz F := by
  unfold cellSum
  have hX := sum_clamped_neighbours nx hx
    (fun i => ∑ j in Finset.range ny.toNat, ∑ k in Finset.range nz.toNat, F i j k)
  have hY : ∑ i in Finset.range nx.toNat, ∑ j in Finset.range ny.toNat,
        ∑ k in Finset.range nz.toNat, F i (IMIN ((j : Int) + 1) (ny - 1)) k
      + ∑ i in Finset.range nx.toNat, ∑ j in Finset.range ny.toNat,
        ∑ k in Finset.range nz.toNat, F i (IMAX ((j : Int) - 1) 0) k
      = ∑ i in Finset.range nx.toNat, ∑ j in Finset.range ny.toNat,
        ∑ k in Finset.range nz.toNat, F i j k
      + ∑ i in Finset.range nx.toNat, ∑ j in Finset.range ny.toNat,
        ∑ k in Finset.range nz.toNat, F i j k := by
    rw [← Finset.sum_add_distrib, ← Finset.sum_add_distrib]
    apply Finset.sum_congr rfl
    intro i _
    exact sum_clamped_neighbours ny hy (fun j => ∑ k in Finset.range nz.toNat, F i j k)
  have hZ : ∑ i in Finset.range nx.toNat, ∑ j in Finset.range ny.toNat,
        ∑ k in Finset.range nz.toNat, F i j (IMIN ((k : Int) + 1) (nz - 1))
      + ∑ i in Finset.range nx.toNat, ∑ j in Finset.range ny.toNat,
        ∑ k in Finset.range nz.toNat, F i j (IMAX ((k : Int) - 1) 0)
      = ∑ i in Finset.range nx.toNat, ∑ j in Finset.range ny.toNat,
        ∑ k in Finset.range nz.toNat, F i j k
      + ∑ i in Finset.range nx.toNat, ∑ j in Finset.range ny.toNat,
        ∑ k in Finset.range nz.toNat, F i j k := by
    rw [← Finset.sum_add_distrib, ← Finset.sum_add_distrib]
    apply Finset.sum_congr rfl
    intro i _
    rw [← Finset.sum_add_distrib, ← Finset.sum_add_distrib]
    apply Finset.sum_congr rfl
    intro j _
    exact sum_clamped_neighbours nz hz (fun k => F i j k)
  simp only [Finset.sum_add_distrib, ← Finset.mul_sum]
  linear_combination a * hX + b * hY + d * hZ

/-! ## Lemmas: the binary32 functions on uniform fields -/

/-- C1. With no accelerator backend left after resolution and `_OPENMP`
undefined (here: no flag defined at all), the chain of lines 42-58 includes no
backend header: no binding is active and `OFFLOAD` is left undefined. -/
theorem resolve_no_flags_binds_nothing :
    (resolve (BuildFlags.mk false false false none)).binding.included = []
    ∧ vocabularyDefined (resolve (BuildFlags.mk false false false none)) = false := by
  decide

/-- C2. When both accelerator backends are requested and both prerequisites
hold, the OpenACC header is the one bound; and whatever the flags, the two
accelerator flags are never both left defined after resolution. -/
theorem resolve_prefers_openacc (fl : BuildFlags) :
    (fl.OFFLOAD_BY_OPENACC = true → fl.OFFLOAD_BY_OPENMP_TARGET = true →
      fl._OPENACC = true → (∃ v, fl._OPENMP = some v ∧ v ≥ 201307) →
      (resolve fl).binding.included = [Header.acc]
      ∧ (resolve fl).flags.OFFLOAD_BY_OPENACC = true
      ∧ (resolve fl).flags.OFFLOAD_BY_OPENMP_TARGET = false)
    ∧ ¬ ((resolve fl).flags.OFFLOAD_BY_OPENACC = true
          ∧ (resolve fl).flags.OFFLOAD_BY_OPENMP_TARGET = true) := by
  obtain ⟨a, b, c, d⟩ := fl
  constructor
  · rintro ha hc hb ⟨v, hv, hd⟩
    simp only at ha hb hc hv
    subst ha hb hc hv
    simp [resolve, selectOne, disableUnavailable, setBackend, BuildFlags.openmpValue, hd]
  · cases a <;> cases b <;> cases c <;>
      by_cases hd : (d.getD 0) ≥ 201307 <;>
      simp [resolve, selectOne, disableUnavailable, BuildFlags.openmpValue, hd]

/-- Witness of C2: OpenACC and OpenMP-target both requested, `_OPENACC`
present, `_OPENMP = 201511`. -/
theorem resolve_prefers_openacc_witness :
    (resolve (BuildFlags.mk true true true (some 201511))).binding.included
        = [Header.acc]
    ∧ (resolve (BuildFlags.mk true true true (some 201511))).flags.OFFLOAD_BY_OPENACC
        = true
    ∧ (resolve (BuildFlags.mk true true true (some 201511))).flags.OFFLOAD_BY_OPENMP_TARGET = false :=
  (resolve_prefers_openacc (BuildFlags.mk true true true (some 201511))).1
    rfl rfl rfl ⟨201511, rfl, by decide⟩

/-- C3. A backend requested without its prerequisite resolves exactly as if
it had not been requested (same flags after resolution, same included
headers, same `IF_NOT_OFFLOADED`), and resolution is a function of the flags:
equal flags give equal resolutions. -/
theorem resolve_ignores_unavailable_request (fl : BuildFlags) :
    (fl.OFFLOAD_BY_OPENACC = true → fl._OPENACC = false →
      resolve fl = resolve { fl with OFFLOAD_BY_OPENACC := false })
    ∧ (fl.OFFLOAD_BY_OPENMP_TARGET = true →
      (fl._OPENMP = none ∨ ∃ v, fl._OPENMP = some v ∧ v < 201307) →
      resolve fl = resolve { fl with OFFLOAD_BY_OPENMP_TARGET := false })
    ∧ (∀ fl2 : BuildFlags, fl2 = fl → resolve fl2 = resolve fl) := by
  obtain ⟨a, b, c, d⟩ := fl
  refine ⟨?_, ?_, ?_⟩
  · intro ha hb
    simp only at ha hb
    subst ha hb
    cases c <;> simp [resolve, selectOne, disableUnavailable, BuildFlags.openmpValue]
  · intro hc hd
    simp only at hc hd
    subst hc
    have hd2 : ¬ (d.getD 0 ≥ 201307) := by
      rcases hd with hd | ⟨v, hv, hlt⟩
      · subst hd
        decide
      · subst hv
        simpa using hlt
    cases a <;> cases b <;>
      simp [resolve, selectOne, disableUnavailable, BuildFlags.openmpValue, hd2]
  · intro fl2 h
    rw [h]

/-- Witness of C3: OpenACC requested without `_OPENACC`, OpenMP-target
requested with `_OPENMP = 200805`, below the threshold. -/
theorem resolve_ignores_unavailable_request_witness :
    resolve (BuildFlags.mk true false true (some 200805))
      = resolve (BuildFlags.mk false false true (some 200805))
    ∧ resolve (BuildFlags.mk true false true (some 200805))
      = resolve (BuildFlags.mk true false false (some 200805)) :=
  ⟨(resolve_ignores_unavailable_request (BuildFlags.mk true false true (some 200805))).1 rfl rfl,
   (resolve_ignores_unavailable_request (BuildFlags.mk true false true (some 200805))).2.1 rfl
      (Or.inr ⟨200805, rfl, by decide⟩)⟩

/-! ## Theorems: the vocabulary after resolution -/

/-- C12. When the resolution binds the OpenACC header, `ASYNC_QUEUE(id)` and
`WAIT_QUEUE(id)` pass the queue id to `ACC_CLAUSE_ASYNC` and to
`PRAGMA_ACC_WAIT`; when it binds the OpenMP-target header, both expand to
nothing, so the id is dropped. -/
theorem queue_id_kept_only_by_openacc {ι : Type} (fl : BuildFlags) (id : ι) :
    ((resolve fl).binding.included = [Header.acc] →
      ASYNC_QUEUE (resolve fl) id = QueueExpansion.ACC_CLAUSE_ASYNC id
      ∧ WAIT_QUEUE (resolve fl) id = QueueExpansion.PRAGMA_ACC_WAIT id)
    ∧ ((resolve fl).binding.included = [Header.omp_target] →
      ASYNC_QUEUE (resolve fl) id = QueueExpansion.nothing
      ∧ WAIT_QUEUE (resolve fl) id = QueueExpansion.nothing) := by
  obtain ⟨a, b, c, d⟩ := fl
  cases a <;> cases b <;> cases c <;> cases hd : d.isSome <;>
    by_cases hv : (d.getD 0) ≥ 201307 <;>
    simp [resolve, selectOne, disableUnavailable, setBackend, BuildFlags.openmpValue,
      ASYNC_QUEUE, WAIT_QUEUE, hv, hd]

/-- Witness of C12: OpenACC requested with `_OPENACC` present, queue id 3;
OpenMP-target requested with `_OPENMP = 201511`, queue id 3. -/
theorem queue_id_kept_only_by_openacc_witness :
    (ASYNC_QUEUE (resolve (BuildFlags.mk true true false none)) (3 : Nat)
        = QueueExpansion.ACC_CLAUSE_ASYNC 3
      ∧ WAIT_QUEUE (resolve (BuildFlags.mk true true false none)) (3 : Nat)
        = QueueExpansion.PRAGMA_ACC_WAIT 3)
    ∧ (ASYNC_QUEUE (resolve (BuildFlags.mk false false true (some 201511))) (3 : Nat)
        = QueueExpansion.nothing
      ∧ WAIT_QUEUE (resolve (BuildFlags.mk false false true (some 201511))) (3 : Nat)
        = QueueExpansion.nothing) :=
  ⟨(queue_id_kept_only_by_openacc (BuildFlags.mk true true false none) (3 : Nat)).1 rfl,
   (queue_id_kept_only_by_openacc (BuildFlags.mk false false true (some 201511)) (3 : Nat)).2
     (by decide)⟩

/-- C13. With no flag defined no accelerator backend is selected, and yet
`IF_NOT_OFFLOADED(arg)` expands to nothing: the definition of line 57 sits in
the branch `#elif defined(_OPENMP)`. -/
theorem if_not_offloaded_drops_arg_without_openmp :
    (resolve (BuildFlags.mk false false false none)).flags.OFFLOAD_BY_OPENACC = false
    ∧ (resolve (BuildFlags.mk false false false none)).flags.OFFLOAD_BY_OPENMP_TARGET = false
    ∧ IF_NOT_OFFLOADED (resolve (BuildFlags.mk false false false none)) [1, 2, 3] = [] := by
  decide

/-! ## Theorems: diffusion3d -/

theorem IMIN_eq_min (a b : Int) : IMIN a b = min a b := by
  unfold IMIN
  split <;> omega

theorem IMAX_eq_max (a b : Int) : IMAX a b = max a b := by
  unfold IMAX
  split <;> omega

/-- C4, counterexample. On the grid 2048 x 2048 x 2048 (every extent is a valid
`int`) the index of cell `(512, 0, 0)` is `2048 * (2048 * 512) = 2^31`, which
overflows `int`: the call has no defined result, so no output field satisfies
the stencil equation. -/
theorem diffusion3d_overflow_2048 :
    diffusion3d 2048 2048 2048 (1 : ℚ) 1 1 (1 / 10) 1 (fun _ => 1) (fun _ => 0) = none := by
  have hidx : stencilIndices 2048 2048 2048 512 0 0 = none := by
    have h : INDEX 2048 2048 2048 512 0 0 = none := by decide
    rw [stencilIndices, h]
    rfl
  have hbody : ∀ s : Int → ℚ,
      diffusion3dBody 2048 2048 2048 (coefficients (1 : ℚ) 1 1 (1 / 10) 1) (fun _ => 1)
        ((512 : Nat) : Int) ((0 : Nat) : Int) ((0 : Nat) : Int) s = none := by
    intro s
    show diffusion3dBody 2048 2048 2048 _ _ 512 0 0 s = none
    rw [diffusion3dBody, hidx]
    rfl
  have hloop := loopNest_eq_none 2048 2048 2048
    (diffusion3dBody 2048 2048 2048 (coefficients (1 : ℚ) 1 1 (1 / 10) 1) (fun _ => 1))
    512 0 0 (by decide) (by decide) (by decide) hbody (fun _ => 0)
  rw [diffusion3d, hloop]
  rfl

/-- C4, amended. For every geometry with `nx, ny, nz ≥ 1` whose cell count
`nx * ny * nz` fits in `int`, `diffusion3d` is defined and every cell
`(i, j, k)` of the output holds the seven-point update of the input with
clamped neighbours, `c_axis = kappa * dt / h_axis ^ 2` and
`cc = 1 - 2 * (c_x + c_y + c_z)` (arithmetic taken as exact). -/
theorem diffusion3d_seven_point {α : Type} [Field α] (nx ny nz : Int)
    (dx dy dz dt kappa : α) (f fn : Int → α)
    (hx : 1 ≤ nx) (hy : 1 ≤ ny) (hz : 1 ≤ nz) (hN : nx * ny * nz ≤ 2147483647) :
    ∃ fn1 cost, diffusion3d nx ny nz dx dy dz dt kappa f fn = some (fn1, cost) ∧
      ∀ i j k : Int, 0 ≤ i → i < nx → 0 ≤ j → j < ny → 0 ≤ k → k < nz →
        fn1 (k + nz * (j + ny * i))
          = (1 - 2 * (kappa * dt / dx ^ 2 + kappa * dt / dy ^ 2 + kappa * dt / dz ^ 2))
              * f (k + nz * (j + ny * i))
            + kappa * dt / dx ^ 2
              * (f (k + nz * (j + ny * min (i + 1) (nx - 1)))
                  + f (k + nz * (j + ny * max (i - 1) 0)))
            + kappa * dt / dy ^ 2
              * (f (k + nz * (min (j + 1) (ny - 1) + ny * i))
                  + f (k + nz * (max (j - 1) 0 + ny * i)))
            + kappa * dt / dz ^ 2
              * (f (min (k + 1) (nz - 1) + nz * (j + ny * i))
                  + f (max (k - 1) 0 + nz * (j + ny * i))) := by
  refine ⟨_, _, diffusion3d_eq_some nx ny nz dx dy dz dt kappa f fn hx hy hz hN, ?_⟩
  intro i j k hi1 hi2 hj1 hj2 hk1 hk2
  have hw := (pureNest_writes nx ny nz
    (fun i j k => stencilValue (coefficients dx dy dz dt kappa) f
      (pureStencilIndices nx ny nz i j k)) fn).1 i j k hi1 hi2 hj1 hj2 hk1 hk2
  have hw2 : diffusion3dField nx ny nz dx dy dz dt kappa f fn (k + nz * (j + ny * i))
      = stencilValue (coefficients dx dy dz dt kappa) f (pureStencilIndices nx ny nz i j k) := hw
  rw [hw2]
  simp only [stencilValue, coefficients, pureStencilIndices, linearIndex, IMIN_eq_min,
    IMAX_eq_max]
  ring

/-- Witness of C4: the 2 x 2 x 2 grid with `f[p] = p`, cell `(0, 0, 0)`. -/
theorem diffusion3d_seven_point_witness :
    ∃ fn1 cost, diffusion3d 2 2 2 (1 : ℚ) 1 1 (1 / 10) 1 (fun p => (p : ℚ)) (fun _ => 0)
        = some (fn1, cost) ∧ fn1 0 = 7 / 10 := by
  obtain ⟨fn1, cost, h, hall⟩ := diffusion3d_seven_point 2 2 2 (1 : ℚ) 1 1 (1 / 10) 1
    (fun p => (p : ℚ)) (fun _ => 0) (by decide) (by decide) (by decide) (by decide)
  refine ⟨fn1, cost, h, ?_⟩
  have h0 := hall 0 0 0 (by decide) (by decide) (by decide) (by decide) (by decide) (by decide)
  norm_num at h0
  rw [h0]

/-- C5. For all `kappa`, `dt` and all non-zero spacings the seven coefficients
of `diffusion3d` sum to one (arithmetic taken as exact). -/
theorem coefficients_sum_one {α : Type} [Field α] (dx dy dz dt kappa : α)
    (_hdx : dx ≠ 0) (_hdy : dy ≠ 0) (_hdz : dz ≠ 0) :
    (coefficients dx dy dz dt kappa).cc + (coefficients dx dy dz dt kappa).ce
      + (coefficients dx dy dz dt kappa).cw + (coefficients dx dy dz dt kappa).cn
      + (coefficients dx dy dz dt kappa).cs + (coefficients dx dy dz dt kappa).ct
      + (coefficients dx dy dz dt kappa).cb = 1 := by
  simp only [coefficients]
  ring

/-- Witness of C5: `dx = 1`, `dy = 2`, `dz = 3`, `dt = 1/10`, `kappa = 1/2`. -/
theorem coefficients_sum_one_witness :
    (coefficients (1 : ℚ) 2 3 (1 / 10) (1 / 2)).cc + (coefficients (1 : ℚ) 2 3 (1 / 10) (1 / 2)).ce
      + (coefficients (1 : ℚ) 2 3 (1 / 10) (1 / 2)).cw
      + (coefficients (1 : ℚ) 2 3 (1 / 10) (1 / 2)).cn
      + (coefficients (1 : ℚ) 2 3 (1 / 10) (1 / 2)).cs
      + (coefficients (1 : ℚ) 2 3 (1 / 10) (1 / 2)).ct
      + (coefficients (1 : ℚ) 2 3 (1 / 10) (1 / 2)).cb = 1 :=
  coefficients_sum_one (1 : ℚ) 2 3 (1 / 10) (1 / 2) (by decide) (by decide) (by decide)

/-- C6, amended. On the grid 1 x 1 x 1 the centre index and the six clamped
neighbour indices of the single cell are all `0`; and with arithmetic taken
as exact and non-zero spacings, `diffusion3d` returns a result and stores
`fn[0] = f[0]`, whatever the other parameters and the input value. -/
theorem diffusion3d_single_cell {α : Type} [Field α] (dx dy dz dt kappa : α)
    (f fn : Int → α) (_hdx : dx ≠ 0) (_hdy : dy ≠ 0) (_hdz : dz ≠ 0) :
    stencilIndices 1 1 1 0 0 0
        = some { ix := 0, ip := 0, im := 0, jp := 0, jm := 0, kp := 0, km := 0 }
    ∧ ∃ fn1 cost, diffusion3d 1 1 1 dx dy dz dt kappa f fn = some (fn1, cost)
        ∧ fn1 0 = f 0 := by
  have hs : stencilIndices 1 1 1 0 0 0
      = some { ix := 0, ip := 0, im := 0, jp := 0, jm := 0, kp := 0, km := 0 } := by decide
  refine ⟨hs, ?_⟩
  have hv : stencilValue (coefficients dx dy dz dt kappa) f
      { ix := 0, ip := 0, im := 0, jp := 0, jm := 0, kp := 0, km := 0 } = f 0 := by
    simp only [stencilValue, coefficients]
    ring
  have hc : int32 1 = some 1 := by decide
  refine ⟨Function.update fn 0 (f 0), (1 : α) * 13, ?_, by simp⟩
  simp [diffusion3d, loopNest, forLoop, diffusion3dBody, diffusion3dCost, hs, hv, hc]

/-- Witness of C6: unit spacings, `dt = kappa = 1/10` and `f[0] = 1` over the
rationals. -/
theorem diffusion3d_single_cell_witness :
    ∃ fn1 cost, diffusion3d 1 1 1 (1 : ℚ) 1 1 (1 / 10) (1 / 10) (fun _ => 1) (fun _ => 0)
        = some (fn1, cost) ∧ fn1 0 = 1 :=
  (diffusion3d_single_cell (1 : ℚ) 1 1 (1 / 10) (1 / 10) (fun _ => 1) (fun _ => 0)
    (by decide) (by decide) (by decide)).2

/-! ## Theorems: init and accuracy -/

/-- The index of cell `(512, 0, 0)` of the grid 2048 x 2048 x 2048 is
`2048 * (2048 * 512) = 2^31`: it overflows `int`. -/
theorem INDEX_overflow_2048 : INDEX 2048 2048 2048 512 0 0 = none := by decide

/-- C7, counterexample. On the grid 2048 x 2048 x 2048 the index of cell
`(512, 0, 0)` overflows `int` inside `init`: the call has no defined result,
so there is no initial field on which `accuracy` returns 0. -/
theorem init_overflow_2048 :
    init Real.cos Real.pi 2048 2048 2048 1 1 1 (fun _ => 0) = none := by
  have hbody : ∀ s : Int → ℝ,
      initBody Real.cos Real.pi 2048 2048 2048 1 1 1
        ((512 : Nat) : Int) ((0 : Nat) : Int) ((0 : Nat) : Int) s = none := by
    intro s
    show initBody Real.cos Real.pi 2048 2048 2048 1 1 1 512 0 0 s = none
    rw [initBody, INDEX_overflow_2048]
    rfl
  exact loopNest_eq_none 2048 2048 2048 (initBody Real.cos Real.pi 2048 2048 2048 1 1 1)
    512 0 0 (by decide) (by decide) (by decide) hbody (fun _ => 0)

/-- C7, amended. For every geometry with `nx, ny, nz ≥ 1` whose cell count
fits in `int`, any spacings and any `kappa`: `init` produces a field, at
`time = 0` the analytic value `accuracy` uses for a cell is the value `init`
writes to it, and `accuracy` at `time = 0` on that field returns 0
(arithmetic taken as exact, with `expf 0 = 1` and `sqrt 0 = 0`). -/
theorem accuracy_init_zero {α : Type} [Field α] (cosf expf sqrt : α → α) (pi : α)
    (nx ny nz : Int) (dx dy dz kappa : α) (f : Int → α)
    (hexp : expf 0 = 1) (hsqrt : sqrt 0 = 0)
    (hx : 1 ≤ nx) (hy : 1 ≤ ny) (hz : 1 ≤ nz) (hN : nx * ny * nz ≤ 2147483647) :
    ∃ f1, init cosf pi nx ny nz dx dy dz f = some f1
      ∧ accuracy cosf expf sqrt pi 0 nx ny nz dx dy dz kappa f1 = some 0
      ∧ ∀ i j k : Int, 0 ≤ i → i < nx → 0 ≤ j → j < ny → 0 ≤ k → k < nz →
          analyticValue cosf expf pi 0 dx dy dz kappa i j k = f1 (k + nz * (j + ny * i)) := by
  refine ⟨_, init_eq_some cosf pi nx ny nz dx dy dz f hN, ?_, ?_⟩
  · rw [accuracy_eq_some cosf expf sqrt pi 0 nx ny nz dx dy dz kappa _ hx hy hz hN]
    have hS : cellSum nx ny nz (squaredError cosf expf pi 0 ny nz dx dy dz kappa
        (initField cosf pi nx ny nz dx dy dz f)) = cellSum nx ny nz (fun _ _ _ => 0) := by
      apply cellSum_congr
      intro i j k hi1 hi2 hj1 hj2 hk1 hk2
      simp [squaredError, initField_cell cosf pi nx ny nz dx dy dz f i j k hi1 hi2 hj1 hj2 hk1 hk2,
        analyticValue_zero cosf expf pi dx dy dz kappa i j k hexp]
    rw [hS]
    simp [cellSum, hsqrt]
  · intro i j k hi1 hi2 hj1 hj2 hk1 hk2
    rw [analyticValue_zero cosf expf pi dx dy dz kappa i j k hexp]
    exact (initField_cell cosf pi nx ny nz dx dy dz f i j k hi1 hi2 hj1 hj2 hk1 hk2).symm

/-- Witness of C7: the grid 4 x 4 x 4 over the reals with the real cosine,
exponential and square root. -/
theorem accuracy_init_zero_witness :
    ∃ f1, init Real.cos Real.pi 4 4 4 (1 / 4) (1 / 4) (1 / 4) (fun _ => 0) = some f1
      ∧ accuracy Real.cos Real.exp Real.sqrt Real.pi 0 4 4 4 (1 / 4) (1 / 4) (1 / 4) (1 / 10) f1
          = some 0 := by
  obtain ⟨f1, h1, h2, _⟩ := accuracy_init_zero Real.cos Real.exp Real.sqrt Real.pi 4 4 4
    (1 / 4) (1 / 4) (1 / 4) (1 / 10) (fun _ => 0) Real.exp_zero Real.sqrt_zero
    (by decide) (by decide) (by decide) (by decide)
  exact ⟨f1, h1, h2⟩

/-- C8, counterexample. On the grid 2048 x 2048 x 2048 the index of cell
`(512, 0, 0)` overflows `int` inside `accuracy`: the call has no defined
result, in particular no value `≥ 0`. -/
theorem accuracy_overflow_2048 :
    accuracy Real.cos Real.exp Real.sqrt Real.pi 0 2048 2048 2048 1 1 1 1 (fun _ => 0)
      = none := by
  have hbody : ∀ s : ℝ,
      accuracyBody Real.cos Real.exp Real.pi 0 2048 2048 2048 1 1 1 1 (fun _ => 0)
        ((512 : Nat) : Int) ((0 : Nat) : Int) ((0 : Nat) : Int) s = none := by
    intro s
    show accuracyBody Real.cos Real.exp Real.pi 0 2048 2048 2048 1 1 1 1 (fun _ => 0)
      512 0 0 s = none
    rw [accuracyBody, INDEX_overflow_2048]
    rfl
  have hloop := loopNest_eq_none 2048 2048 2048
    (accuracyBody Real.cos Real.exp Real.pi 0 2048 2048 2048 1 1 1 1 (fun _ => 0))
    512 0 0 (by decide) (by decide) (by decide) hbody (0 : ℝ)
  rw [accuracy, hloop]
  rfl

/-- C8, amended. For every geometry with `nx, ny, nz ≥ 1` whose cell count
fits in `int`, every time, parameters and field, `accuracy` returns a value
`≥ 0`, and returns 0 if and only if every cell of the field holds the analytic
value `0.125 * prod_axis (1 - exp(-kappa * time * (2 pi)^2) *
cos(2 pi * h_axis * (idx_axis + 0.5)))` (arithmetic taken as exact, `sqrt`
non-negative on and vanishing only at 0 among the non-negative numbers). -/
theorem accuracy_nonneg_zero_iff {α : Type} [LinearOrderedField α] (cosf expf sqrt : α → α)
    (pi : α) (time : α) (nx ny nz : Int) (dx dy dz kappa : α) (f : Int → α)
    (hsqrt0 : ∀ x, 0 ≤ x → 0 ≤ sqrt x) (hsqrt : ∀ x, 0 ≤ x → (sqrt x = 0 ↔ x = 0))
    (hx : 1 ≤ nx) (hy : 1 ≤ ny) (hz : 1 ≤ nz) (hN : nx * ny * nz ≤ 2147483647) :
    ∃ a, accuracy cosf expf sqrt pi time nx ny nz dx dy dz kappa f = some a ∧ 0 ≤ a
      ∧ (a = 0 ↔ ∀ i j k : Int, 0 ≤ i → i < nx → 0 ≤ j → j < ny → 0 ≤ k → k < nz →
          f (k + nz * (j + ny * i))
            = 1 / 8
              * (1 - expf (-kappa * time * (2 * pi) ^ 2) * cosf (2 * pi * (dx * ((i : α) + 1 / 2))))
              * (1 - expf (-kappa * time * (2 * pi) ^ 2) * cosf (2 * pi * (dy * ((j : α) + 1 / 2))))
              * (1 - expf (-kappa * time * (2 * pi) ^ 2)
                  * cosf (2 * pi * (dz * ((k : α) + 1 / 2))))) := by
  obtain ⟨a, h1, h2, h3⟩ := accuracy_spec cosf expf sqrt pi time nx ny nz dx dy dz kappa f
    hsqrt0 hsqrt hx hy hz hN
  refine ⟨a, h1, h2, ?_⟩
  rw [h3]
  simp only [linearIndex, analyticValue, decayFactor, cellCentre, sq]

/-- Witness of C8: the grid 4 x 4 x 4 over the reals with the real cosine,
exponential and square root, the zero field at `time = 1`. -/
theorem accuracy_nonneg_zero_iff_witness :
    ∃ a, accuracy Real.cos Real.exp Real.sqrt Real.pi 1 4 4 4 (1 / 4) (1 / 4) (1 / 4) (1 / 10)
        (fun _ => 0) = some a ∧ 0 ≤ a := by
  obtain ⟨a, h1, h2, _⟩ := accuracy_nonneg_zero_iff Real.cos Real.exp Real.sqrt Real.pi 1 4 4 4
    (1 / 4) (1 / 4) (1 / 4) (1 / 10) (fun _ => 0) (fun x _ => Real.sqrt_nonneg x)
    (fun _ hx => Real.sqrt_eq_zero hx) (by decide) (by decide) (by decide) (by decide)
  exact ⟨a, h1, h2⟩

/-! ## Theorems: the dependence of accuracy on time -/

/-- C10, counterexample. Grid 1 x 1 x 1, unit spacing, `kappa = 1`, the field
whose cell holds 1: `accuracy` is 0 at `t1 = 0` and cannot be larger than
`accuracy` at `t2 = 1`. -/
theorem accuracy_not_decreasing :
    ∃ a1 a2,
      accuracy Real.cos Real.exp Real.sqrt Real.pi 0 1 1 1 1 1 1 1 (fun _ => 1) = some a1
      ∧ accuracy Real.cos Real.exp Real.sqrt Real.pi 1 1 1 1 1 1 1 1 (fun _ => 1) = some a2
      ∧ ¬ (a1 > a2) := by
  obtain ⟨a1, h1, _, h13⟩ := accuracy_spec Real.cos Real.exp Real.sqrt Real.pi 0 1 1 1 1 1 1 1
    (fun _ => 1) (fun x _ => Real.sqrt_nonneg x) (fun _ hx => Real.sqrt_eq_zero hx)
    (by decide) (by decide) (by decide) (by decide)
  obtain ⟨a2, h2, h22, _⟩ := accuracy_spec Real.cos Real.exp Real.sqrt Real.pi 1 1 1 1 1 1 1 1
    (fun _ => 1) (fun x _ => Real.sqrt_nonneg x) (fun _ hx => Real.sqrt_eq_zero hx)
    (by decide) (by decide) (by decide) (by decide)
  have ha1 : a1 = 0 := by
    rw [h13]
    intro i j k _ _ _ _ _ _
    rw [analyticValue_unit_spacing]
    simp [decayFactor]
    norm_num
  exact ⟨a1, a2, h1, h2, by rw [ha1]; exact not_lt.mpr h22⟩

/-- C10, amended. For a geometry with `nx, ny, nz ≥ 1` whose cell count fits
in `int`, a field, `kappa > 0` and `0 ≤ t1 < t2`: the decay factor
`exp(-kappa * t * (2 pi)^2)` of the analytic value is strictly smaller at `t2`
than at `t1`; `accuracy` returns a value `≥ 0` at both times; and when the
field holds the analytic value of time `t1` in every cell, `accuracy` is 0 at
`t1`, hence not larger than at `t2`. -/
theorem accuracy_time_dependence (nx ny nz : Int) (dx dy dz kappa t1 t2 : ℝ) (f : Int → ℝ)
    (hx : 1 ≤ nx) (hy : 1 ≤ ny) (hz : 1 ≤ nz) (hN : nx * ny * nz ≤ 2147483647)
    (hkappa : 0 < kappa) (_ht1 : 0 ≤ t1) (ht : t1 < t2) :
    decayFactor Real.exp Real.pi kappa t2 < decayFactor Real.exp Real.pi kappa t1
    ∧ ∃ a1 a2,
      accuracy Real.cos Real.exp Real.sqrt Real.pi t1 nx ny nz dx dy dz kappa f = some a1
      ∧ accuracy Real.cos Real.exp Real.sqrt Real.pi t2 nx ny nz dx dy dz kappa f = some a2
      ∧ 0 ≤ a1 ∧ 0 ≤ a2
      ∧ ((∀ i j k : Int, 0 ≤ i → i < nx → 0 ≤ j → j < ny → 0 ≤ k → k < nz →
            f (k + nz * (j + ny * i))
              = analyticValue Real.cos Real.exp Real.pi t1 dx dy dz kappa i j k) →
          a1 = 0 ∧ a1 ≤ a2) := by
  refine ⟨decayFactor_strictAnti kappa t1 t2 hkappa ht, ?_⟩
  obtain ⟨a1, h1, h12, h13⟩ := accuracy_spec Real.cos Real.exp Real.sqrt Real.pi t1 nx ny nz
    dx dy dz kappa f (fun x _ => Real.sqrt_nonneg x) (fun _ hx => Real.sqrt_eq_zero hx)
    hx hy hz hN
  obtain ⟨a2, h2, h22, _⟩ := accuracy_spec Real.cos Real.exp Real.sqrt Real.pi t2 nx ny nz
    dx dy dz kappa f (fun x _ => Real.sqrt_nonneg x) (fun _ hx => Real.sqrt_eq_zero hx)
    hx hy hz hN
  refine ⟨a1, a2, h1, h2, h12, h22, ?_⟩
  intro hf
  have ha1 : a1 = 0 := h13.mpr hf
  exact ⟨ha1, by rw [ha1]; exact h22⟩

/-- Witness of C10: the grid 4 x 4 x 4 with spacing 1/4, `kappa = 1/10`, the
zero field, `t1 = 0` and `t2 = 1`. -/
theorem accuracy_time_dependence_witness :
    decayFactor Real.exp Real.pi (1 / 10) 1 < decayFactor Real.exp Real.pi (1 / 10) 0
    ∧ ∃ a1 a2,
      accuracy Real.cos Real.exp Real.sqrt Real.pi 0 4 4 4 (1 / 4) (1 / 4) (1 / 4) (1 / 10)
        (fun _ => 0) = some a1
      ∧ accuracy Real.cos Real.exp Real.sqrt Real.pi 1 4 4 4 (1 / 4) (1 / 4) (1 / 4) (1 / 10)
        (fun _ => 0) = some a2
      ∧ 0 ≤ a1 ∧ 0 ≤ a2 := by
  obtain ⟨hd, a1, a2, h1, h2, h3, h4, _⟩ := accuracy_time_dependence 4 4 4
    (1 / 4) (1 / 4) (1 / 4) (1 / 10) 0 1 (fun _ => 0)
    (by decide) (by decide) (by decide) (by decide) (by norm_num) (le_refl 0) (by norm_num)
  exact ⟨hd, a1, a2, h1, h2, h3, h4⟩

/-! ## Theorems: stability, maximum principle and cost of diffusion3d -/

/-- C11, counterexample. First: the grid 3 x 3 x 3 with unit spacings,
`kappa = 1`, `dt = 1/3` satisfies `kappa * dt * (1/dx^2 + 1/dy^2 + 1/dz^2) ≤ 1`;
the field is `-1` at the centre cell (offset 13) and `1` elsewhere, so
`max |f| = 1`, and after the step the centre cell holds `3`. Second: on the
grid 2048 x 2048 x 2048 with the same parameters the call has no defined
result. -/
theorem diffusion3d_unstable_at_one :
    ((1 : ℚ) * (1 / 3) * (1 / 1 ^ 2 + 1 / 1 ^ 2 + 1 / 1 ^ 2) ≤ 1
      ∧ (∀ p : Int, |(if p = 13 then (-1 : ℚ) else 1)| ≤ 1)
      ∧ ∃ fn1 cost, diffusion3d 3 3 3 (1 : ℚ) 1 1 (1 / 3) 1
          (fun p => if p = 13 then -1 else 1) (fun _ => 0) = some (fn1, cost)
        ∧ fn1 (1 + 3 * (1 + 3 * 1)) = 3)
    ∧ diffusion3d 2048 2048 2048 (1 : ℚ) 1 1 (1 / 3) 1
        (fun p => if p = 13 then -1 else 1) (fun _ => 0) = none := by
  refine ⟨⟨by norm_num, ?_, _, _, diffusion3d_eq_some 3 3 3 (1 : ℚ) 1 1 (1 / 3) 1 _ _
    (by decide) (by decide) (by decide) (by decide), ?_⟩, diffusion3d_undefined_2048 _ _ _ _ _ _ _⟩
  · intro p
    split <;> norm_num
  · have h := diffusion3dField_cell 3 3 3 (1 : ℚ) 1 1 (1 / 3) 1
      (fun p => if p = 13 then -1 else 1) (fun _ => 0) 1 1 1
      (by decide) (by decide) (by decide) (by decide) (by decide) (by decide)
    have e : linearIndex 3 3 1 1 1 = 1 + 3 * (1 + 3 * 1) := rfl
    rw [e] at h
    rw [h]
    simp only [stencilValue, coefficients, pureStencilIndices, linearIndex, IMIN, IMAX]
    norm_num

/-- C11, amended. For every geometry with `nx, ny, nz ≥ 1` whose cell count
fits in `int`, `kappa > 0`, `dt > 0` and positive spacings with
`kappa * dt * (1/dx^2 + 1/dy^2 + 1/dz^2) ≤ 1/2`, one `diffusion3d` step does not
increase the maximum absolute value of the field: every bound of `|f|` over
the cells is a bound of `|fn|` over the cells (arithmetic taken as exact). -/
theorem diffusion3d_max_abs_nonincreasing {α : Type} [LinearOrderedField α] (nx ny nz : Int)
    (dx dy dz dt kappa : α) (f fn : Int → α)
    (hx : 1 ≤ nx) (hy : 1 ≤ ny) (hz : 1 ≤ nz) (hN : nx * ny * nz ≤ 2147483647)
    (hkappa : 0 < kappa) (hdt : 0 < dt) (_hdx : 0 < dx) (_hdy : 0 < dy) (_hdz : 0 < dz)
    (hS : kappa * dt * (1 / dx ^ 2 + 1 / dy ^ 2 + 1 / dz ^ 2) ≤ 1 / 2) :
    ∃ fn1 cost, diffusion3d nx ny nz dx dy dz dt kappa f fn = some (fn1, cost) ∧
      ∀ M : α,
        (∀ i j k : Int, 0 ≤ i → i < nx → 0 ≤ j → j < ny → 0 ≤ k → k < nz →
          |f (k + nz * (j + ny * i))| ≤ M) →
        ∀ i j k : Int, 0 ≤ i → i < nx → 0 ≤ j → j < ny → 0 ≤ k → k < nz →
          |fn1 (k + nz * (j + ny * i))| ≤ M := by
  refine ⟨_, _, diffusion3d_eq_some nx ny nz dx dy dz dt kappa f fn hx hy hz hN, ?_⟩
  intro M hM i j k hi1 hi2 hj1 hj2 hk1 hk2
  have hb := stencilValue_between nx ny nz dx dy dz dt kappa f (-M) M hkappa.le hdt.le hS
    (fun i j k a1 a2 b1 b2 c1 c2 => abs_le.mp (hM i j k a1 a2 b1 b2 c1 c2))
    i j k hi1 hi2 hj1 hj2 hk1 hk2
  have hc := diffusion3dField_cell nx ny nz dx dy dz dt kappa f fn i j k
    hi1 hi2 hj1 hj2 hk1 hk2
  unfold linearIndex at hc
  rw [hc]
  exact abs_le.mpr hb

/-- Witness of C11: the grid 3 x 3 x 3 with unit spacings, `kappa = 1`,
`dt = 1/6`, the field `-1` at offset 13 and `1` elsewhere. -/
theorem diffusion3d_max_abs_nonincreasing_witness :
    ∃ fn1 cost, diffusion3d 3 3 3 (1 : ℚ) 1 1 (1 / 6) 1
        (fun p => if p = 13 then -1 else 1) (fun _ => 0) = some (fn1, cost)
      ∧ |fn1 13| ≤ 1 := by
  obtain ⟨fn1, cost, h, hall⟩ := diffusion3d_max_abs_nonincreasing 3 3 3 (1 : ℚ) 1 1 (1 / 6) 1
    (fun p => if p = 13 then -1 else 1) (fun _ => 0)
    (by decide) (by decide) (by decide) (by decide) (by norm_num) (by norm_num)
    (by norm_num) (by norm_num) (by norm_num) (by norm_num)
  refine ⟨fn1, cost, h, ?_⟩
  have hM : ∀ i j k : Int, 0 ≤ i → i < 3 → 0 ≤ j → j < 3 → 0 ≤ k → k < 3 →
      |(fun p : Int => if p = 13 then (-1 : ℚ) else 1) (k + 3 * (j + 3 * i))| ≤ 1 := by
    intro i j k _ _ _ _ _ _
    show |(if k + 3 * (j + 3 * i) = 13 then (-1 : ℚ) else 1)| ≤ 1
    split <;> norm_num
  exact hall 1 hM 1 1 1 (by decide) (by decide) (by decide) (by decide) (by decide) (by decide)

/-- C14, counterexample. On the grid 65536 x 32768 x 1 every index fits in
`int`, but the product `nx * ny` of the return expression is `2^31`, which
overflows `int`: the call does not return 13 times the cell count. -/
theorem diffusion3d_cost_overflow :
    diffusion3dCost 65536 32768 1 = (none : Option ℚ)
    ∧ diffusion3d 65536 32768 1 (1 : ℚ) 1 1 (1 / 10) 1 (fun _ => 0) (fun _ => 0) = none := by
  have h : diffusion3dCost 65536 32768 1 = (none : Option ℚ) := by
    have h1 : int32 (65536 * 32768) = none := by decide
    rw [diffusion3dCost, h1]
    rfl
  exact ⟨h, diffusion3d_undefined_of_cost _ _ _ _ _ _ _ _ _ _ h⟩

/-- C14, amended. For every geometry with `nx, ny, nz ≥ 1` whose cell count
fits in `int`, `diffusion3d` returns 13 times the cell count `nx * ny * nz`,
whatever the field contents and the physical parameters. -/
theorem diffusion3d_returns_cost {α : Type} [Field α] (nx ny nz : Int)
    (dx dy dz dt kappa : α) (f fn : Int → α)
    (hx : 1 ≤ nx) (hy : 1 ≤ ny) (hz : 1 ≤ nz) (hN : nx * ny * nz ≤ 2147483647) :
    ∃ fn1, diffusion3d nx ny nz dx dy dz dt kappa f fn
      = some (fn1, 13 * ((nx : α) * (ny : α) * (nz : α))) := by
  refine ⟨diffusion3dField nx ny nz dx dy dz dt kappa f fn, ?_⟩
  rw [diffusion3d_eq_some nx ny nz dx dy dz dt kappa f fn hx hy hz hN]
  push_cast
  rw [mul_comm]

/-- Witness of C14: the grid 4 x 5 x 6 returns `13 * 120 = 1560`. -/
theorem diffusion3d_returns_cost_witness :
    ∃ fn1, diffusion3d 4 5 6 (1 : ℚ) 1 1 (1 / 10) 1 (fun _ => 0) (fun _ => 0)
      = some (fn1, 1560) := by
  obtain ⟨fn1, h⟩ := diffusion3d_returns_cost 4 5 6 (1 : ℚ) 1 1 (1 / 10) 1 (fun _ => 0)
    (fun _ => 0) (by decide) (by decide) (by decide) (by decide)
  refine ⟨fn1, ?_⟩
  rw [h]
  norm_num

/-- C18. Discrete maximum principle. Arithmetic is taken as exact: the field
after the step is `diffusion3dField`, the loop nest of `diffusion3d` with
exact index arithmetic. For every geometry with `nx, ny, nz ≥ 1`, `kappa ≥ 0`,
`dt ≥ 0` and non-zero spacings with
`kappa * dt * (1/dx^2 + 1/dy^2 + 1/dz^2) ≤ 1/2`, the seven coefficients are
non-negative and every output value lies between any lower and any upper
bound of the input over the cells, in particular between its minimum and its
maximum; and whenever the cell count fits in `int`, `diffusion3d` returns
exactly this field. -/
theorem diffusion3d_maximum_principle {α : Type} [LinearOrderedField α] (nx ny nz : Int)
    (dx dy dz dt kappa : α) (f fn : Int → α)
    (hx : 1 ≤ nx) (hy : 1 ≤ ny) (hz : 1 ≤ nz)
    (hkappa : 0 ≤ kappa) (hdt : 0 ≤ dt) (_hdx : dx ≠ 0) (_hdy : dy ≠ 0) (_hdz : dz ≠ 0)
    (hS : kappa * dt * (1 / dx ^ 2 + 1 / dy ^ 2 + 1 / dz ^ 2) ≤ 1 / 2) :
    (0 ≤ (coefficients dx dy dz dt kappa).cc ∧ 0 ≤ (coefficients dx dy dz dt kappa).ce
      ∧ 0 ≤ (coefficients dx dy dz dt kappa).cw ∧ 0 ≤ (coefficients dx dy dz dt kappa).cn
      ∧ 0 ≤ (coefficients dx dy dz dt kappa).cs ∧ 0 ≤ (coefficients dx dy dz dt kappa).ct
      ∧ 0 ≤ (coefficients dx dy dz dt kappa).cb)
    ∧ (∀ m M : α,
        (∀ i j k : Int, 0 ≤ i → i < nx → 0 ≤ j → j < ny → 0 ≤ k → k < nz →
          m ≤ f (k + nz * (j + ny * i)) ∧ f (k + nz * (j + ny * i)) ≤ M) →
        ∀ i j k : Int, 0 ≤ i → i < nx → 0 ≤ j → j < ny → 0 ≤ k → k < nz →
          m ≤ diffusion3dField nx ny nz dx dy dz dt kappa f fn (k + nz * (j + ny * i))
          ∧ diffusion3dField nx ny nz dx dy dz dt kappa f fn (k + nz * (j + ny * i)) ≤ M)
    ∧ (nx * ny * nz ≤ 2147483647 →
        ∃ cost, diffusion3d nx ny nz dx dy dz dt kappa f fn
          = some (diffusion3dField nx ny nz dx dy dz dt kappa f fn, cost)) := by
  refine ⟨coefficients_nonneg dx dy dz dt kappa hkappa hdt hS, ?_,
    fun hN => ⟨_, diffusion3d_eq_some nx ny nz dx dy dz dt kappa f fn hx hy hz hN⟩⟩
  intro m M hmM i j k hi1 hi2 hj1 hj2 hk1 hk2
  have hb := stencilValue_between nx ny nz dx dy dz dt kappa f m M hkappa hdt hS hmM
    i j k hi1 hi2 hj1 hj2 hk1 hk2
  have hc := diffusion3dField_cell nx ny nz dx dy dz dt kappa f fn i j k
    hi1 hi2 hj1 hj2 hk1 hk2
  unfold linearIndex at hc
  rw [hc]
  exact hb

/-- Witness of C18: the grid 2 x 2 x 2 with unit spacings, `kappa = 1`,
`dt = 1/10` and the field `f[p] = p`, whose values on the grid lie in
`[0, 7]`. -/
theorem diffusion3d_maximum_principle_witness :
    0 ≤ (coefficients (1 : ℚ) 1 1 (1 / 10) 1).cc
    ∧ ∃ fn1 cost, diffusion3d 2 2 2 (1 : ℚ) 1 1 (1 / 10) 1 (fun p => (p : ℚ)) (fun _ => 0)
        = some (fn1, cost)
      ∧ 0 ≤ fn1 0 ∧ fn1 0 ≤ 7 := by
  obtain ⟨hc, hall, hrun⟩ := diffusion3d_maximum_principle 2 2 2 (1 : ℚ) 1 1 (1 / 10) 1
    (fun p => (p : ℚ)) (fun _ => 0) (by decide) (by decide) (by decide)
    (by norm_num) (by norm_num) (by norm_num) (by norm_num) (by norm_num) (by norm_num)
  obtain ⟨cost, h⟩ := hrun (by decide)
  refine ⟨hc.1, _, cost, h, ?_⟩
  have hf : ∀ i j k : Int, 0 ≤ i → i < 2 → 0 ≤ j → j < 2 → 0 ≤ k → k < 2 →
      (0 : ℚ) ≤ (fun p : Int => (p : ℚ)) (k + 2 * (j + 2 * i))
        ∧ (fun p : Int => (p : ℚ)) (k + 2 * (j + 2 * i)) ≤ 7 := by
    intro i j k hi1 hi2 hj1 hj2 hk1 hk2
    constructor
    · show (0 : ℚ) ≤ ((k + 2 * (j + 2 * i) : Int) : ℚ)
      exact_mod_cast (by omega : (0 : Int) ≤ k + 2 * (j + 2 * i))
    · show ((k + 2 * (j + 2 * i) : Int) : ℚ) ≤ 7
      exact_mod_cast (by omega : k + 2 * (j + 2 * i) ≤ (7 : Int))
  have := hall 0 7 hf 0 0 0 (by decide) (by decide) (by decide) (by decide) (by decide)
    (by decide)
  simpa using this

/-! ## Theorems: the indices of diffusion3d -/

/-- C15, counterexample. On the grid 2048 x 2048 x 2048 the centre index of
the in-range cell `(512, 0, 0)` is `2048 * (2048 * 512) = 2^31`: the index
computation overflows `int`, so it yields no offset of the buffers. -/
theorem stencilIndices_overflow_2048 : stencilIndices 2048 2048 2048 512 0 0 = none := by
  have h : INDEX 2048 2048 2048 512 0 0 = none := by decide
  rw [stencilIndices, h]
  rfl

/-- C15, amended. For every geometry with `nx, ny, nz ≥ 1` whose cell count
fits in `int` and every cell `(i, j, k)` in range, the seven linear indices
of the loop body are defined and lie in `[0, nx * ny * nz - 1]`; each is the
linear index of the cell with one clamped coordinate, and each clamped
coordinate lies in `[0, extent - 1]` and differs from the centre coordinate
by at most 1. -/
theorem stencil_indices_in_bounds (nx ny nz i j k : Int)
    (_hx : 1 ≤ nx) (_hy : 1 ≤ ny) (_hz : 1 ≤ nz) (hN : nx * ny * nz ≤ 2147483647)
    (hi : 0 ≤ i) (hi2 : i < nx) (hj : 0 ≤ j) (hj2 : j < ny) (hk : 0 ≤ k) (hk2 : k < nz) :
    ∃ s, stencilIndices nx ny nz i j k = some s
      ∧ ((0 ≤ s.ix ∧ s.ix ≤ nx * ny * nz - 1) ∧ (0 ≤ s.ip ∧ s.ip ≤ nx * ny * nz - 1)
        ∧ (0 ≤ s.im ∧ s.im ≤ nx * ny * nz - 1) ∧ (0 ≤ s.jp ∧ s.jp ≤ nx * ny * nz - 1)
        ∧ (0 ≤ s.jm ∧ s.jm ≤ nx * ny * nz - 1) ∧ (0 ≤ s.kp ∧ s.kp ≤ nx * ny * nz - 1)
        ∧ (0 ≤ s.km ∧ s.km ≤ nx * ny * nz - 1))
      ∧ (s.ix = k + nz * (j + ny * i)
        ∧ s.ip = k + nz * (j + ny * IMIN (i + 1) (nx - 1))
        ∧ s.im = k + nz * (j + ny * IMAX (i - 1) 0)
        ∧ s.jp = k + nz * (IMIN (j + 1) (ny - 1) + ny * i)
        ∧ s.jm = k + nz * (IMAX (j - 1) 0 + ny * i)
        ∧ s.kp = IMIN (k + 1) (nz - 1) + nz * (j + ny * i)
        ∧ s.km = IMAX (k - 1) 0 + nz * (j + ny * i))
      ∧ (0 ≤ IMIN (i + 1) (nx - 1) ∧ IMIN (i + 1) (nx - 1) ≤ nx - 1
        ∧ i ≤ IMIN (i + 1) (nx - 1) ∧ IMIN (i + 1) (nx - 1) ≤ i + 1)
      ∧ (0 ≤ IMAX (i - 1) 0 ∧ IMAX (i - 1) 0 ≤ nx - 1
        ∧ i - 1 ≤ IMAX (i - 1) 0 ∧ IMAX (i - 1) 0 ≤ i)
      ∧ (0 ≤ IMIN (j + 1) (ny - 1) ∧ IMIN (j + 1) (ny - 1) ≤ ny - 1
        ∧ j ≤ IMIN (j + 1) (ny - 1) ∧ IMIN (j + 1) (ny - 1) ≤ j + 1)
      ∧ (0 ≤ IMAX (j - 1) 0 ∧ IMAX (j - 1) 0 ≤ ny - 1
        ∧ j - 1 ≤ IMAX (j - 1) 0 ∧ IMAX (j - 1) 0 ≤ j)
      ∧ (0 ≤ IMIN (k + 1) (nz - 1) ∧ IMIN (k + 1) (nz - 1) ≤ nz - 1
        ∧ k ≤ IMIN (k + 1) (nz - 1) ∧ IMIN (k + 1) (nz - 1) ≤ k + 1)
      ∧ (0 ≤ IMAX (k - 1) 0 ∧ IMAX (k - 1) 0 ≤ nz - 1
        ∧ k - 1 ≤ IMAX (k - 1) 0 ∧ IMAX (k - 1) 0 ≤ k) :=
  ⟨pureStencilIndices nx ny nz i j k, stencilIndices_eq_some hi hi2 hj hj2 hk hk2 hN,
    pureStencilIndices_bounds hi hi2 hj hj2 hk hk2,
    ⟨rfl, rfl, rfl, rfl, rfl, rfl, rfl⟩,
    IMIN_succ_range hi hi2, IMAX_pred_range hi hi2, IMIN_succ_range hj hj2,
    IMAX_pred_range hj hj2, IMIN_succ_range hk hk2, IMAX_pred_range hk hk2⟩

/-- Witness of C15: the corner cell `(0, 1, 2)` of the grid 2 x 2 x 3. -/
theorem stencil_indices_in_bounds_witness :
    ∃ s, stencilIndices 2 2 3 0 1 2 = some s ∧ 0 ≤ s.kp ∧ s.kp ≤ 2 * 2 * 3 - 1
      ∧ s.kp = 2 + 3 * (1 + 2 * 0) := by
  obtain ⟨s, h, hb, he, _⟩ := stencil_indices_in_bounds 2 2 3 0 1 2 (by decide) (by decide)
    (by decide) (by decide) (by decide) (by decide) (by decide) (by decide) (by decide)
    (by decide)
  exact ⟨s, h, hb.2.2.2.2.2.1.1, hb.2.2.2.2.2.1.2, he.2.2.2.2.2.1⟩

/-- C16, counterexample. On the grid 2048 x 2048 x 2048 the iteration
`(512, 0, 0)` of the loop nest has no defined write location: its index
`2^31` overflows `int`. -/
theorem diffusion3dBody_overflow_2048 :
    diffusion3dBody 2048 2048 2048 (coefficients (1 : ℚ) 1 1 (1 / 10) 1) (fun _ => 0)
      512 0 0 (fun _ => 0) = none := by
  have h : INDEX 2048 2048 2048 512 0 0 = none := by decide
  have hs : stencilIndices 2048 2048 2048 512 0 0 = none := by
    rw [stencilIndices, h]
    rfl
  rw [diffusion3dBody, hs]
  rfl

/-- C16, amended. For every geometry with `nx, ny, nz ≥ 1` whose cell count
fits in `int`, `INDEX` maps the cells of the grid one-to-one onto
`{0, ..., nx * ny * nz - 1}`: its value on a cell is `k + nz * (j + ny * i)`
and lies in that range, distinct cells have distinct indices, and every
offset of the range is the index of a cell; iteration `(i, j, k)` of
`diffusion3d` stores to `fn` at that offset and nowhere else. -/
theorem index_bijection {α : Type} [Field α] (nx ny nz : Int)
    (_hx : 1 ≤ nx) (hy : 1 ≤ ny) (hz : 1 ≤ nz) (hN : nx * ny * nz ≤ 2147483647) :
    (∀ i j k : Int, 0 ≤ i → i < nx → 0 ≤ j → j < ny → 0 ≤ k → k < nz →
      INDEX nx ny nz i j k = some (k + nz * (j + ny * i))
        ∧ 0 ≤ k + nz * (j + ny * i) ∧ k + nz * (j + ny * i) ≤ nx * ny * nz - 1)
    ∧ (∀ i j k i2 j2 k2 : Int, 0 ≤ i → i < nx → 0 ≤ j → j < ny → 0 ≤ k → k < nz →
        0 ≤ i2 → i2 < nx → 0 ≤ j2 → j2 < ny → 0 ≤ k2 → k2 < nz →
        INDEX nx ny nz i j k = INDEX nx ny nz i2 j2 k2 → i = i2 ∧ j = j2 ∧ k = k2)
    ∧ (∀ p : Int, 0 ≤ p → p ≤ nx * ny * nz - 1 →
        ∃ i j k : Int, 0 ≤ i ∧ i < nx ∧ 0 ≤ j ∧ j < ny ∧ 0 ≤ k ∧ k < nz
          ∧ INDEX nx ny nz i j k = some p)
    ∧ (∀ (c : Coefficients α) (f fn : Int → α) (i j k : Int),
        0 ≤ i → i < nx → 0 ≤ j → j < ny → 0 ≤ k → k < nz →
        ∃ v, diffusion3dBody nx ny nz c f i j k fn
          = some (Function.update fn (k + nz * (j + ny * i)) v)) := by
  refine ⟨?_, ?_, ?_, ?_⟩
  · intro i j k hi hi2 hj hj2 hk hk2
    obtain ⟨h1, h2, h3, h4, h5, h6, h7⟩ := linearIndex_bounds hi hi2 hj hj2 hk hk2
    unfold linearIndex at h5 h6
    exact ⟨INDEX_eq_some hi hi2 hj hj2 hk hk2 hN, by omega, h6⟩
  · intro i j k i2 j2 k2 hi hi2 hj hj2 hk hk2 gi gi2 gj gj2 gk gk2 h
    rw [INDEX_eq_some hi hi2 hj hj2 hk hk2 hN, INDEX_eq_some gi gi2 gj gj2 gk gk2 hN] at h
    exact linearIndex_injective hj hj2 hk hk2 gj gj2 gk gk2 (Option.some.inj h)
  · intro p hp hp2
    obtain ⟨i, j, k, hi, hi2, hj, hj2, hk, hk2, he⟩ := linearIndex_surjective hy hz hp hp2
    exact ⟨i, j, k, hi, hi2, hj, hj2, hk, hk2, by
      rw [INDEX_eq_some hi hi2 hj hj2 hk hk2 hN, he]⟩
  · intro c f fn i j k hi hi2 hj hj2 hk hk2
    refine ⟨stencilValue c f (pureStencilIndices nx ny nz i j k), ?_⟩
    simp [diffusion3dBody, stencilIndices_eq_some hi hi2 hj hj2 hk hk2 hN, pureStencilIndices,
      linearIndex]

/-- Witness of C16: on the grid 2 x 3 x 4 the offset 17 is the index of a
cell. -/
theorem index_bijection_witness :
    ∃ i j k : Int, 0 ≤ i ∧ i < 2 ∧ 0 ≤ j ∧ j < 3 ∧ 0 ≤ k ∧ k < 4
      ∧ INDEX 2 3 4 i j k = some 17 :=
  (@index_bijection ℚ _ 2 3 4 (by decide) (by decide) (by decide) (by decide)).2.2.1 17
    (by decide) (by decide)

/-! ## Theorems: conservation of the sum over the cells -/

/-- C17. The clamped-neighbour update is zero-flux. Arithmetic is taken as
exact: the field after the step is `diffusion3dField`, the loop nest of
`diffusion3d` with exact index arithmetic. For every geometry with
`nx, ny, nz ≥ 1`, all parameters and every input field, its sum over all
cells equals the sum of `f` over all cells; and whenever the cell count fits
in `int`, `diffusion3d` returns exactly this field. -/
theorem diffusion3d_conserves_sum {α : Type} [Field α] (nx ny nz : Int)
    (dx dy dz dt kappa : α) (f fn : Int → α)
    (hx : 1 ≤ nx) (hy : 1 ≤ ny) (hz : 1 ≤ nz) :
    cellSum nx ny nz
        (fun i j k => diffusion3dField nx ny nz dx dy dz dt kappa f fn (k + nz * (j + ny * i)))
      = cellSum nx ny nz (fun i j k => f (k + nz * (j + ny * i)))
    ∧ (nx * ny * nz ≤ 2147483647 →
        ∃ cost, diffusion3d nx ny nz dx dy dz dt kappa f fn
          = some (diffusion3dField nx ny nz dx dy dz dt kappa f fn, cost)) := by
  refine ⟨?_, fun hN => ⟨_, diffusion3d_eq_some nx ny nz dx dy dz dt kappa f fn hx hy hz hN⟩⟩
  have h1 : cellSum nx ny nz
      (fun i j k => diffusion3dField nx ny nz dx dy dz dt kappa f fn (k + nz * (j + ny * i)))
      = cellSum nx ny nz (fun i j k =>
          stencilValue (coefficients dx dy dz dt kappa) f (pureStencilIndices nx ny nz i j k)) :=
    cellSum_congr nx ny nz _ _ (fun i j k hi1 hi2 hj1 hj2 hk1 hk2 =>
      diffusion3dField_cell nx ny nz dx dy dz dt kappa f fn i j k hi1 hi2 hj1 hj2 hk1 hk2)
  rw [h1]
  exact cellSum_stencil nx ny nz hx hy hz (kappa * dt / (dx * dx)) (kappa * dt / (dy * dy))
    (kappa * dt / (dz * dz)) (fun i j k => f (k + nz * (j + ny * i)))

/-- Witness of C17: the grid 2 x 2 x 2 with `f[p] = p`, whose sum over the
cells is 28. -/
theorem diffusion3d_conserves_sum_witness :
    ∃ fn1 cost, diffusion3d 2 2 2 (1 : ℚ) 1 1 (1 / 10) 1 (fun p => (p : ℚ)) (fun _ => 0)
        = some (fn1, cost)
      ∧ cellSum 2 2 2 (fun i j k => fn1 (k + 2 * (j + 2 * i))) = 28 := by
  obtain ⟨hsum, hrun⟩ := diffusion3d_conserves_sum 2 2 2 (1 : ℚ) 1 1 (1 / 10) 1
    (fun p => (p : ℚ)) (fun _ => 0) (by decide) (by decide) (by decide)
  obtain ⟨cost, h⟩ := hrun (by decide)
  refine ⟨_, cost, h, ?_⟩
  rw [hsum]
  simp [cellSum, Finset.sum_range_succ]
  norm_num

/-! ## Theorems: rounding in binary32 -/

/-- C6, counterexample. In `float`, on the grid 1 x 1 x 1 with unit spacings,
`dt = kappa = 0.1f` (the binary32 value `13421773 / 2^27` of `0.1`) and
`f[0] = 1`, `diffusion3d` stores `fn[0] = 1 - 2^-24`, not `f[0]`; and with
`dx = 0` the division of line 19 has no finite result, so `fn[0]` is not a
finite number. -/
theorem diffusion3dF32_single_cell_rounds :
    binary32 (1 / 10) = some (13421773 / 134217728)
    ∧ (diffusion3dF32 1 1 1 1 1 1 (13421773 / 134217728) (13421773 / 134217728)
        (fun _ => 1) (fun _ => 0)).map (fun r => r.1 0) = some (16777215 / 16777216)
    ∧ (16777215 / 16777216 : ℚ) ≠ (fun _ : Int => (1 : ℚ)) 0
    ∧ (diffusion3dF32 1 1 1 0 1 1 (13421773 / 134217728) (13421773 / 134217728)
        (fun _ => 1) (fun _ => 0)).isSome = false := by
  refine ⟨by decide!, by decide!, by norm_num, by decide!⟩

end Solomon
